import Mathlib

/-!
Verification of the `appdeploy`/`daemonctl` deployment tool.

This file gives a shallow embedding, in Lean 4, of the parts of
`src/py/appdeploy.py` and `src/py/daemonctl.py` that the frozen claims
are about, and proves (or refutes) each claim against that embedding.

Conventions:
* Python strings are Lean `String`s; the character-level scanning done by
  the source (regex search, `partition`, `rpartition`, `index`) is
  implemented over `List Char` via `String.data`.
* Filesystem state touched by a component is embedded as an explicit
  record (`AppFs` for the per-application layout, `FsWorld` for the
  executor-level view); every mutating Python function becomes a pure
  function from state to state (wrapped in `Except` when it can raise).
* Remote/local commands whose outcome depends on the outside world
  (ssh, process spawning, health probes) become explicit boolean/oracle
  parameters, so every possible outcome of the real run corresponds to a
  choice of parameters.
-/

deriving instance DecidableEq for Except

namespace AppDeploy


/-! ## Character and string helpers shared by several embedded functions -/

/-- Suffix test on character lists (embeds Python `str.endswith`). -/
def listEndsWith (s suffix : List Char) : Bool :=
  suffix.length ≤ s.length && s.drop (s.length - suffix.length) = suffix

/-- Embedding of the character class `[0-9a-f]` used by the regex in
`appdeploy_package_parse_archive` (`appdeploy.py:758`). -/
def isHexDigitChar (c : Char) : Bool :=
  c.isDigit || ('a' ≤ c && c ≤ 'f')

/-- Does the text right after a hyphen start a version, per the regex
`-(\d|[0-9a-f]{7,})` of `appdeploy_package_parse_archive`
(`appdeploy.py:758`)? True when the first character is a digit, or at
least seven hexadecimal characters follow. -/
def startsVersionMatch (cs : List Char) : Bool :=
  (match cs with
   | c :: _ => c.isDigit
   | [] => false)
  || ((cs.take 7).length == 7 && (cs.take 7).all isHexDigitChar)

/-- Position of the first regex match `-(\d|[0-9a-f]{7,})` in a string,
i.e. the split point computed by `re.search` in
`appdeploy_package_parse_archive` (`appdeploy.py:758`). -/
def findSplit : List Char → Option Nat
  | [] => none
  | c :: rest =>
    if c = '-' && startsVersionMatch rest then some 0
    else (findSplit rest).map (· + 1)

/-- Remove the last `n` characters of a string. -/
def dropSuffix (s : String) (n : Nat) : String :=
  String.mk (s.data.take (s.data.length - n))

/-- Strip the first matching known extension from a filename: the
`for ext in (".tar.gz", ".tar.bz2", ".tar.xz", ".tgz"): if
base.endswith(ext): base = base[:-len(ext)]; break` loop of
`appdeploy_package_parse_archive` (`appdeploy.py:751`-755), unrolled in
the same order. -/
def stripKnownExtension (filename : String) : String :=
  if listEndsWith filename.data (".tar.gz" : String).data then dropSuffix filename 7
  else if listEndsWith filename.data (".tar.bz2" : String).data then dropSuffix filename 8
  else if listEndsWith filename.data (".tar.xz" : String).data then dropSuffix filename 7
  else if listEndsWith filename.data (".tgz" : String).data then dropSuffix filename 4
  else filename

/-! ## C6 model: `appdeploy_package_parse_archive` and archive naming -/

/-- Embedding of `appdeploy_package_parse_archive` (`appdeploy.py:742`-771):
strip a known extension, split at the first hyphen followed by a digit
or a run of at least 7 hex characters, and require both halves nonempty.
Errors are collapsed to `Except String` values carrying the message kind. -/
def appdeploy_package_parse_archive (filename : String) :
    Except String (String × String) :=
  let base := stripKnownExtension filename
  match findSplit base.data with
  | none => .error "cannot parse"
  | some i =>
    let name := String.mk (base.data.take i)
    let version := String.mk (base.data.drop (i + 1))
    if name = "" then .error "empty name"
    else if version = "" then .error "empty version"
    else .ok (name, version)

/-- Extension chosen by `appdeploy_package_create` for a compression kind
(`ext_map` with default `.tar.gz`, `appdeploy.py:916`-917). -/
def createExtension (compression : String) : String :=
  if compression = "gz" then ".tar.gz"
  else if compression = "bz2" then ".tar.bz2"
  else if compression = "xz" then ".tar.xz"
  else ".tar.gz"

/-- The archive filename produced by `appdeploy_package_create`
(`appdeploy.py:919`: `f"{pkg.name}-{pkg.version}{ext}"`). -/
def appdeploy_package_create_filename
    (name version compression : String) : String :=
  name ++ "-" ++ version ++ createExtension compression

/-! ## C7 model: `appdeploy_target_parse` (`appdeploy.py:358`-419)

The parser consults the outside world in two places: `Path(s).exists()`
and `Path(s).expanduser()`. Those are passed in as a `ParseEnv`, along
with the `APPDEPLOY_TARGET` default base path. -/

/-- Environmental inputs of `appdeploy_target_parse`. -/
structure ParseEnv where
  existsAsDir : String → Bool
  expandUser : String → String
  defaultPath : String

/-- Embedding of the `Target` dataclass (`appdeploy.py:89`-96). -/
structure Target where
  host : Option String
  user : Option String
  path : String
  isRemote : Bool

deriving DecidableEq, Repr

/-- Split at the first occurrence of a character: Python
`str.partition` without the separator component. Absent separator
yields `(s, "")`. -/
def splitOnFirstL : List Char → Char → List Char × List Char
  | [], _ => ([], [])
  | x :: xs, c =>
    if x = c then ([], xs)
    else
      let p := splitOnFirstL xs c
      (x :: p.1, p.2)

/-- Python `str.partition(c)` as `(before, after)`. -/
def strPartition (s : String) (c : Char) : String × String :=
  let p := splitOnFirstL s.data c
  (String.mk p.1, String.mk p.2)

/-- Python `str.rpartition(c)` as `(before, after)`; absent separator
yields `("", s)`. -/
def strRPartition (s : String) (c : Char) : String × String :=
  let p := splitOnFirstL s.data.reverse c
  (String.mk p.2.reverse, String.mk p.1.reverse)

/-- Python `str.index(c)` (first occurrence), partial via `Option`. -/
def charIndexL : List Char → Char → Option Nat
  | [], _ => none
  | x :: xs, c => if x = c then some 0 else (charIndexL xs c).map (· + 1)

/-- Python `c in s` for a single character. -/
def strContainsChar (s : String) (c : Char) : Bool :=
  s.data.contains c

/-- Python `target_str.startswith(("/", "./", "../", "~"))`
(`appdeploy.py:403`). -/
def startsWithLocalPattern (s : String) : Bool :=
  ("/" : String).data.isPrefixOf s.data
    || ("./" : String).data.isPrefixOf s.data
    || ("../" : String).data.isPrefixOf s.data
    || ("~" : String).data.isPrefixOf s.data

/-- Embedding of `appdeploy_target_parse` (`appdeploy.py:358`-419),
with the same rule order: forced-both error; `user@host[:path]`;
`host:path` unless the colon sits at position 1 after a single
alphabetic character (Windows drive); forced remote; local path
patterns; existing local directory; `localhost`/`127.0.0.1`; forced
local; remote hostname fallback. -/
def appdeploy_target_parse (env : ParseEnv) (targetStr : String)
    (forceLocal forceRemote : Bool) : Except String Target :=
  if forceLocal && forceRemote then
    .error "Cannot specify both --local and --remote"
  else if strContainsChar targetStr '@' && !forceLocal then
    let p := strPartition targetStr ':'
    let q := strRPartition p.1 '@'
    .ok { host := some q.2,
          user := if q.1 = "" then none else some q.1,
          path := if p.2 ≠ "" then p.2 else env.defaultPath,
          isRemote := true }
  else if strContainsChar targetStr ':' && !forceLocal
      && !(charIndexL targetStr.data ':' = some 1
            && (targetStr.data.headD ' ').isAlpha) then
    let p := strPartition targetStr ':'
    .ok { host := some p.1, user := none,
          path := if p.2 ≠ "" then p.2 else env.defaultPath,
          isRemote := true }
  else if forceRemote then
    .ok { host := some targetStr, user := none, path := env.defaultPath,
          isRemote := true }
  else if startsWithLocalPattern targetStr then
    .ok { host := none, user := none, path := env.expandUser targetStr,
          isRemote := false }
  else if env.existsAsDir targetStr then
    .ok { host := none, user := none, path := targetStr, isRemote := false }
  else if targetStr = "localhost" || targetStr = "127.0.0.1" then
    .ok { host := none, user := none, path := env.defaultPath,
          isRemote := false }
  else if forceLocal then
    .ok { host := none, user := none, path := targetStr, isRemote := false }
  else
    .ok { host := some targetStr, user := none, path := env.defaultPath,
          isRemote := true }

/-- A fully concrete parse environment: no string exists as a local
directory, `expanduser` is the identity, and the default base path is
the source default `/opt/apps` (`appdeploy.py:51`). -/
def plainParseEnv : ParseEnv :=
  { existsAsDir := fun _ => false, expandUser := fun s => s,
    defaultPath := "/opt/apps" }

/-! ## C4 model: `daemonctl_supervisor_run` (`daemonctl.py:1450`-1582)

The claim's scenario has a child that always exits immediately (so the
monitor loop breaks out at its first `process.poll()`), no termination
signal, and `restart_delay = 0`.  One outer-loop iteration then is:
run the on-start hook, spawn the child, observe its exit, run the
on-stop hook, and apply the restart policy
(`restart_count += 1; if max_restarts > 0 and restart_count >
max_restarts: return 1`, `daemonctl.py:1563`-1575).  The loop is given
explicit fuel; `none` means the fuel ran out before the supervisor
returned (which, for the claim's scenario, never happens with enough
fuel). -/

/-- Hook and spawn counters observed during a supervisor run. -/
structure SupervisorCounts where
  spawns : Nat
  onStartHooks : Nat
  onStopHooks : Nat

deriving DecidableEq, Repr

/-- One outer iteration of `daemonctl_supervisor_run` for an
immediately-exiting child, followed by the restart-policy check; the
result pairs the counters with the supervisor's return code. -/
def daemonctl_supervisor_loop (restart : Bool) (maxRestarts childExit : Nat) :
    Nat → Nat → SupervisorCounts → Option (SupervisorCounts × Nat)
  | 0, _, _ => none
  | fuel + 1, restartCount, counts =>
    let counts' : SupervisorCounts :=
      { spawns := counts.spawns + 1,
        onStartHooks := counts.onStartHooks + 1,
        onStopHooks := counts.onStopHooks + 1 }
    if restart then
      if 0 < maxRestarts ∧ maxRestarts < restartCount + 1 then
        some (counts', 1)
      else
        daemonctl_supervisor_loop restart maxRestarts childExit fuel
          (restartCount + 1) counts'
    else
      some (counts', if childExit ≠ 0 then childExit else 0)

/-- Embedding of `daemonctl_supervisor_run` specialised to the claim's
scenario (child exits immediately with `childExit`, no signals). -/
def daemonctl_supervisor_run (restart : Bool)
    (maxRestarts childExit fuel : Nat) : Option (SupervisorCounts × Nat) :=
  daemonctl_supervisor_loop restart maxRestarts childExit fuel 0
    { spawns := 0, onStartHooks := 0, onStopHooks := 0 }

/-! ## Executor-level filesystem model (for C8 and C10)

The target executor (`appdeploy.py:457`-677) manipulates a filesystem
on the target.  We model that filesystem as a finite association list
from paths to nodes; a path `q` is inside the subtree of `p` exactly
when `q` starts with `p ++ "/"`.  Remote commands issued by the
executor (`test -e`, `cat`, and arbitrary mutating shell commands) are
an inductive type interpreted against the world — the shallow
embedding of the remote shell. -/

/-- A filesystem node: regular file with content, directory, or
symbolic link. -/
inductive FsNode
  | file (content : String)
  | dir
  | symlink (target : String)

deriving DecidableEq, Repr

/-- The target's filesystem: an association list from absolute paths to
nodes. -/
abbrev FsWorld := List (String × FsNode)

/-- Python `Path(p).exists()` / `test -e p`. -/
def fsExists (w : FsWorld) (p : String) : Bool :=
  w.any (fun q => q.1 = p)

/-- Content of a regular file, if `p` names one. -/
def fsRead (w : FsWorld) (p : String) : Option String :=
  match w.find? (fun q => q.1 = p) with
  | some (_, .file c) => some c
  | _ => none

/-- Python `Path(p).is_dir()`. -/
def fsIsDir (w : FsWorld) (p : String) : Bool :=
  match w.find? (fun q => q.1 = p) with
  | some (_, .dir) => true
  | _ => false

/-- Remove the entry at `p` and everything below it (`shutil.rmtree` /
`rm -rf`). -/
def fsRemoveTree (w : FsWorld) (p : String) : FsWorld :=
  w.filter (fun q => ¬ q.1 = p && ¬ (p ++ "/").data.isPrefixOf q.1.data)

/-- Remove the single entry at `p` (`Path.unlink` / `rm -f` on a
file). -/
def fsRemoveSingle (w : FsWorld) (p : String) : FsWorld :=
  w.filter (fun q => ¬ q.1 = p)

/-- Result record of `subprocess.run` as used by the executor. -/
structure CompletedProcess where
  returncode : Nat
  stdout : String
  stderr : String

deriving DecidableEq, Repr

/-- The remote commands the executor issues for the operations under
study: `test -e PATH`, `cat PATH`, and arbitrary mutating commands
(modelled by their effect on the world plus their output). -/
inductive RemoteCmd
  | testExists (p : String)
  | catFile (p : String)
  | generic (effect : FsWorld → FsWorld) (returncode : Nat) (stdout : String)

/-- Interpretation of a remote command by the target's shell. -/
def remoteShellInterp (w : FsWorld) : RemoteCmd → FsWorld × CompletedProcess
  | .testExists p =>
    (w, { returncode := if fsExists w p then 0 else 1, stdout := "", stderr := "" })
  | .catFile p =>
    match fsRead w p with
    | some c => (w, { returncode := 0, stdout := c, stderr := "" })
    | none => (w, { returncode := 1, stdout := "", stderr := "cat: not found" })
  | .generic eff code out =>
    (eff w, { returncode := code, stdout := out, stderr := "" })

/-- Embedding of `appdeploy_exec_run` (`appdeploy.py:457`-491): in
dry-run mode it logs and returns a successful `CompletedProcess`
without executing anything (`appdeploy.py:474`-478); otherwise the
command runs on the target. -/
def appdeploy_exec_run (dryRun : Bool) (w : FsWorld) (cmd : RemoteCmd) :
    FsWorld × CompletedProcess :=
  if dryRun then (w, { returncode := 0, stdout := "", stderr := "" })
  else remoteShellInterp w cmd

/-- Embedding of `appdeploy_exec_exists` (`appdeploy.py:580`-588):
remote targets go through `appdeploy_exec_run target "test -e ..."`
(and therefore through its dry-run short-circuit); local targets call
`Path(path).exists()` directly. -/
def appdeploy_exec_exists (dryRun isRemote : Bool) (w : FsWorld)
    (p : String) : Bool :=
  if isRemote then
    (appdeploy_exec_run dryRun w (.testExists p)).2.returncode == 0
  else
    fsExists w p

/-- Embedding of `appdeploy_exec_read` (`appdeploy.py:567`-577): remote
targets run `cat PATH` with `check=True` (a non-zero exit raises);
local targets call `Path(path).read_text()` (raises when missing). -/
def appdeploy_exec_read (dryRun isRemote : Bool) (w : FsWorld)
    (p : String) : Except String String :=
  if isRemote then
    let r := (appdeploy_exec_run dryRun w (.catFile p)).2
    if r.returncode ≠ 0 then .error "remote command failed"
    else .ok r.stdout
  else
    match fsRead w p with
    | some c => .ok c
    | none => .error "FileNotFoundError"

/-- Embedding of `appdeploy_exec_mkdir` (`appdeploy.py:591`-602):
dry-run no-op; otherwise `mkdir -p` / `Path.mkdir(parents, exist_ok)`,
idempotent. -/
def appdeploy_exec_mkdir (dryRun : Bool) (w : FsWorld) (p : String) : FsWorld :=
  if dryRun then w
  else if fsExists w p then w
  else w ++ [(p, .dir)]

/-- Embedding of `appdeploy_exec_rm` (`appdeploy.py:605`-637).  Dry-run
is a no-op; a missing path is a no-op on both remote (early return at
line 614-615) and local (`if p.exists()` at line 623) targets; a
recursive removal of a directory deletes the subtree (`rm -rf` /
`shutil.rmtree` after making it writable — permission bits are not
modelled); a non-recursive removal of a directory raises
(`rm -f`-on-directory / `Path.unlink`); otherwise the single entry is
unlinked. -/
def appdeploy_exec_rm (dryRun : Bool) (w : FsWorld) (p : String)
    (recursive : Bool) : Except String FsWorld :=
  if dryRun then .ok w
  else if ¬ fsExists w p then .ok w
  else if recursive && fsIsDir w p then .ok (fsRemoveTree w p)
  else if fsIsDir w p then .error "IsADirectoryError"
  else .ok (fsRemoveSingle w p)

/-- Embedding of `appdeploy_exec_symlink` (`appdeploy.py:640`-660):
dry-run no-op; otherwise `ln -sf` / unlink-then-`symlink_to`
(overwrites an existing entry). -/
def appdeploy_exec_symlink (dryRun : Bool) (w : FsWorld)
    (linkPath targetPath : String) : FsWorld :=
  if dryRun then w
  else fsRemoveSingle w linkPath ++ [(linkPath, .symlink targetPath)]

/-- Embedding of `appdeploy_exec_rename` (`appdeploy.py:663`-676):
dry-run no-op; otherwise `mv` / `Path.rename` moves the entry and its
subtree from `src` to `dst`. -/
def appdeploy_exec_rename (dryRun : Bool) (w : FsWorld)
    (src dst : String) : FsWorld :=
  if dryRun then w
  else
    w.map (fun q =>
      if q.1 = src then (dst, q.2)
      else if (src ++ "/").data.isPrefixOf q.1.data then
        (dst ++ String.mk (q.1.data.drop src.data.length), q.2)
      else q)

/-- Embedding of `appdeploy_exec_copy` (`appdeploy.py:534`-564):
dry-run no-op; otherwise the destination receives the uploaded
content. -/
def appdeploy_exec_copy (dryRun : Bool) (w : FsWorld)
    (content dst : String) : FsWorld :=
  if dryRun then w
  else fsRemoveSingle w dst ++ [(dst, .file content)]

/-! ## Application-layout model (C1, C2, C3, C5)

The per-application directory tree under `B/N/` (`appdeploy.py` §layout)
is embedded as one record.  `dist` maps a version to the entry names of
`dist/<V>/`, kept in the newest-first order that `ls -1t` reports (so
`List.map Prod.fst dist` is exactly the output of `ls -1t dist/`).
`run`, `runNew` and `runOld` are the `run/`, `run.new/` and `run.old/`
directories; a run directory is a map from entry name to symlink
target, plus the contents of its `.version` file and whether `.pid`
exists.  `data/`, `conf/` and `packages/` are entry-name lists.
The `logs/` directory and permission bits are not modelled (no claim
mentions them). -/

/-- A composed run directory (`run/`, `run.new/` or `run.old/`). -/
structure RunDir where
  entries : List (String × String)
  version : Option String
  hasPid : Bool

deriving DecidableEq, Repr

/-- The on-target state of one application. -/
structure AppFs where
  dist : List (String × List String)
  dataEntries : List String
  confEntries : List String
  packages : List String
  run : Option RunDir
  runNew : Option RunDir
  runOld : Option RunDir

deriving DecidableEq, Repr

/-- A freshly created, empty staging directory (`mkdir run.new`). -/
def emptyRunDir : RunDir :=
  { entries := [], version := none, hasPid := false }

/-- Entry list of `dist/<v>/`, when that version is installed. -/
def distLookup (fs : AppFs) (v : String) : Option (List String) :=
  (fs.dist.find? (fun q => q.1 = v)).map (fun q => q.2)

/-- Contents of `run/.version` (`appdeploy_exec_read(...).strip()`), or
none when `run/` or the file is absent. -/
def activeVersion (fs : AppFs) : Option String :=
  match fs.run with
  | some rd => rd.version
  | none => none

/-- Presence of `run/.pid`. -/
def pidExists (fs : AppFs) : Bool :=
  match fs.run with
  | some rd => rd.hasPid
  | none => false

/-- `daemonctl start` writing `run/.pid` (via the foreground runner). -/
def setRunPid (fs : AppFs) : AppFs :=
  { fs with run := fs.run.map (fun rd => { rd with hasPid := true }) }

/-- `daemonctl stop` removing `run/.pid`. -/
def clearRunPid (fs : AppFs) : AppFs :=
  { fs with run := fs.run.map (fun rd => { rd with hasPid := false }) }

/-- A dot-file, which `ls -1` does not report. -/
def isHiddenName (s : String) : Bool :=
  match s.data with
  | c :: _ => c = '.'
  | [] => false

/-- `ls -1` on a directory whose entry names are `l`
(`list_entries`, `appdeploy.py:1312`-1318): visible entries only. -/
def visibleEntries (l : List String) : List String :=
  l.filter (fun s => ¬ isHiddenName s)

/-- Lookup in a run-directory entry map (first match, as in a real
directory where names are unique). -/
def getEntry : List (String × String) → String → Option String
  | [], _ => none
  | e :: rest, k => if e.1 = k then some e.2 else getEntry rest k

/-- `ln -sf` semantics on the entry map: overwrite an existing name or
add a new one. -/
def setEntry : List (String × String) → String → String →
    List (String × String)
  | [], k, v => [(k, v)]
  | e :: rest, k, v =>
    if e.1 = k then (k, v) :: rest else e :: setEntry rest k v

/-- `rm` of a single entry in a run directory. -/
def removeEntry : List (String × String) → String → List (String × String)
  | [], _ => []
  | e :: rest, k =>
    if e.1 = k then removeEntry rest k else e :: removeEntry rest k

/-- Embedding of `appdeploy_target_populate_run`
(`appdeploy.py:1295`-1344): layer `dist/<v>/` (symlink, `ln -sf`
overwrites), then `data/` (remove any colliding entry, then symlink),
then `conf/` (likewise), then the fixed `logs -> ../logs` symlink.
Each layer enumerates its source directory with `ls -1`, so hidden
entries are skipped.  All targets are relative. -/
def appdeploy_target_populate_run (fs : AppFs) (v : String) (rd : RunDir) :
    RunDir :=
  let distEntries := visibleEntries ((distLookup fs v).getD [])
  let e1 := distEntries.foldl
    (fun es e => setEntry es e ("../dist/" ++ v ++ "/" ++ e)) rd.entries
  let e2 := (visibleEntries fs.dataEntries).foldl
    (fun es e => setEntry (removeEntry es e) e ("../data/" ++ e)) e1
  let e3 := (visibleEntries fs.confEntries).foldl
    (fun es e => setEntry (removeEntry es e) e ("../conf/" ++ e)) e2
  { rd with entries := setEntry e3 "logs" "../logs" }

/-- The staged `run.new/` contents right before the swap: the populated
layer composition plus the `.version` file (`appdeploy.py:1246`-1258). -/
def stagedRunDir (fs : AppFs) (v : String) : RunDir :=
  { appdeploy_target_populate_run fs v emptyRunDir with version := some v }

/-- Failure points of one activation run.  An executor operation that
raises aborts the remaining steps; `ActStop` names the last mutation
that completed (`beforeMutation` covers failures in the read-only
prechecks, `midPopulate p` a failure part-way through populating the
staging directory, leaving it with arbitrary contents `p`;
`complete` a run in which no executor operation failed). -/
inductive ActStop
  | beforeMutation
  | afterClearNew
  | afterMkdirNew
  | midPopulate (part : RunDir)
  | afterWriteVersion
  | afterRenameOld
  | afterRenameNew
  | afterRemoveOld
  | complete

deriving DecidableEq, Repr

/-- Final phase of the activation swap, from the state `fsPre` in which
`run/` is absent and `run.new/` holds `staged`: rename `run.new/` to
`run/` (`appdeploy.py:1264`), remove `run.old/` (line 1265), and
restart the app when it was running and restarting was requested
(line 1270-1271, outcome `restartOk`). -/
def activateFinishPhase (fsPre : AppFs) (staged : RunDir)
    (wasRunning noRestart restartOk : Bool) (stop : ActStop) :
    Except AppFs AppFs :=
  let fs6 : AppFs := { fsPre with run := some staged, runNew := none }
  if stop = .afterRenameNew then .error fs6
  else
    let fs7 : AppFs := { fs6 with runOld := none }
    if stop = .afterRemoveOld then .error fs7
    else if wasRunning && !noRestart then
      (if restartOk then .ok (setRunPid fs7) else .error fs7)
    else .ok fs7

/-- Embedding of `appdeploy_target_activate` (`appdeploy.py:1208`-1271)
as a function of the failure point.  Steps, in source order: resolve
and check the version directory; idempotent early return when
`run/.version` already equals `v` (recording `was_running` requires
`run/.version` to exist); clear and recreate `run.new/`; populate it;
write `run.new/.version`; if `run/` exists, rename it to `run.old/`
(same-filesystem rename — it fails when `run.old/` already exists,
`Path.rename` semantics); rename `run.new/` to `run/`; remove
`run.old/`; restart if the app was running.  `.error s` means the run
raised with the target left in state `s`; `.ok s` is a successful
return. -/
def appdeploy_target_activate (fs : AppFs) (v : String)
    (noRestart restartOk : Bool) (stop : ActStop) : Except AppFs AppFs :=
  if (distLookup fs v).isNone then .error fs
  else if activeVersion fs = some v then
    (if stop = .beforeMutation then .error fs else .ok fs)
  else
    let wasRunning := match fs.run with
      | some rd => rd.version.isSome && rd.hasPid
      | none => false
    match stop with
    | .beforeMutation => .error fs
    | .afterClearNew => .error { fs with runNew := none }
    | .afterMkdirNew => .error { fs with runNew := some emptyRunDir }
    | .midPopulate part => .error { fs with runNew := some part }
    | .afterWriteVersion => .error { fs with runNew := some (stagedRunDir fs v) }
    | stop2 =>
      let staged := stagedRunDir fs v
      let fs4 : AppFs := { fs with runNew := some staged }
      match fs.run with
      | some _ =>
        if fs.runOld.isSome then .error fs4
        else
          let fs5 : AppFs := { fs4 with run := none, runOld := fs.run }
          if stop2 = .afterRenameOld then .error fs5
          else
            activateFinishPhase fs5 staged wasRunning noRestart restartOk stop2
      | none =>
        activateFinishPhase fs4 staged wasRunning noRestart restartOk stop2

/-- The counterexample state for C1: version `1.0` is installed and
already active, and a stale `run.old/` is left over from an earlier
crashed activation (crash between step 8 and step 9). -/
def c1StaleFs : AppFs :=
  { dist := [("1.0", ["run.sh"])], dataEntries := [], confEntries := [],
    packages := [],
    run := some { entries := [("run.sh", "../dist/1.0/run.sh"),
                              ("logs", "../logs")],
                  version := some "1.0", hasPid := false },
    runNew := none,
    runOld := some emptyRunDir }

/-- A fresh-target activation input for the C1 witness. -/
def c1WitnessFs : AppFs :=
  { dist := [("1.0", ["run.sh", "conf.toml"])], dataEntries := [],
    confEntries := [], packages := [], run := none, runNew := none,
    runOld := none }

/-- The state produced by activating `1.0` on `c1WitnessFs`. -/
def c1WitnessResult : AppFs :=
  { dist := [("1.0", ["run.sh", "conf.toml"])], dataEntries := [],
    confEntries := [], packages := [],
    run := some { entries := [("run.sh", "../dist/1.0/run.sh"),
                              ("conf.toml", "../dist/1.0/conf.toml"),
                              ("logs", "../logs")],
                  version := some "1.0", hasPid := false },
    runNew := none, runOld := none }

/-- Is a symlink target inside `dist/<v>/`? (The claim's "resolves into
`dist/<V>/`" for the relative-symlink convention.) -/
def resolvesIntoDist (target v : String) : Bool :=
  ("../dist/" ++ v ++ "/").data.isPrefixOf target.data

/-- C2 counterexample state: `dist/1.0/` contains `app.conf` and
`run.sh`, and `data/` also contains `app.conf`. -/
def c2CollisionFs : AppFs :=
  { dist := [("1.0", ["app.conf", "run.sh"])], dataEntries := ["app.conf"],
    confEntries := [], packages := [], run := none, runNew := none,
    runOld := none }

/-- The run directory produced by activating `1.0` on
`c2CollisionFs`. -/
def c2CollisionRun : RunDir :=
  { entries := [("run.sh", "../dist/1.0/run.sh"),
                ("app.conf", "../data/app.conf"),
                ("logs", "../logs")],
    version := some "1.0", hasPid := false }

/-- C2 witness state: a collision-free fresh target. -/
def c2WitnessFs : AppFs :=
  { dist := [("1.0", ["run.sh", "conf.toml"])], dataEntries := [],
    confEntries := [], packages := [], run := none, runNew := none,
    runOld := none }

/-- The state produced by activating `1.0` on `c2WitnessFs`. -/
def c2WitnessResult : AppFs :=
  { dist := [("1.0", ["run.sh", "conf.toml"])], dataEntries := [],
    confEntries := [], packages := [],
    run := some { entries := [("run.sh", "../dist/1.0/run.sh"),
                              ("conf.toml", "../dist/1.0/conf.toml"),
                              ("logs", "../logs")],
                  version := some "1.0", hasPid := false },
    runNew := none, runOld := none }

/-! ## C5 model: `appdeploy_target_clean` (`appdeploy.py:1450`-1497)

`clean` keeps the active version plus the `keep` most recent other
versions (mtime order = the order of `fs.dist`), removes the rest, and
for each removed version deletes any archive `NAME-<V><EXT>` for
`EXT ∈ {.tar.gz, .tar.bz2, .tar.xz}` — note: NOT `.tgz`, although
`.tgz` is a supported archive extension elsewhere in the tool. -/

/-- The archive extensions `appdeploy_target_clean` tries when deleting
archives of a removed version (`appdeploy.py:1490`). -/
def cleanArchiveExtensions : List String := [".tar.gz", ".tar.bz2", ".tar.xz"]

/-- The archive filenames `clean` would delete for app `name` at
version `v`. -/
def archiveNames (name v : String) : List String :=
  cleanArchiveExtensions.map (fun ext => name ++ "-" ++ v ++ ext)

/-- Removal of one version: delete `dist/<v>/` and its archives
(`appdeploy.py:1487`-1493). -/
def cleanRemoveVersion (fs : AppFs) (name v : String) : AppFs :=
  { fs with dist := fs.dist.filter (fun q => ¬ q.1 = v),
            packages := fs.packages.filter
              (fun a => ¬ a ∈ archiveNames name v) }

/-- The `for ver in versions` loop of `appdeploy_target_clean`
(`appdeploy.py:1479`-1495): skip the active version, keep the first
`keep` other versions, remove the rest, returning the removed list in
loop order. -/
def cleanLoop (name : String) (keep : Nat) (active : Option String) :
    List String → Nat → AppFs → AppFs × List String
  | [], _, fs => (fs, [])
  | ver :: rest, kept, fs =>
    if some ver = active then cleanLoop name keep active rest kept fs
    else if kept < keep then cleanLoop name keep active rest (kept + 1) fs
    else
      let fs2 := cleanRemoveVersion fs name ver
      let r := cleanLoop name keep active rest kept fs2
      (r.1, ver :: r.2)

/-- Embedding of `appdeploy_target_clean` (`appdeploy.py:1450`-1497):
no-op for `keep <= 0`; otherwise read the active version from
`run/.version`, list `dist/` in mtime order (`ls -1t`), and run the
retention loop. -/
def appdeploy_target_clean (fs : AppFs) (name : String) (keep : Nat) :
    AppFs × List String :=
  if keep = 0 then (fs, [])
  else cleanLoop name keep (activeVersion fs) (fs.dist.map (fun q => q.1)) 0 fs

/-- C5 counterexample state: three installed versions newest-first,
version `2.0` active, archives present for each, the oldest (`1.0`)
having been installed from a `.tgz` archive. -/
def c5TgzFs : AppFs :=
  { dist := [("3.0", ["run.sh"]), ("2.0", ["run.sh"]), ("1.0", ["run.sh"])],
    dataEntries := [], confEntries := [],
    packages := ["app-3.0.tar.gz", "app-2.0.tar.gz", "app-1.0.tgz"],
    run := some { entries := [("run.sh", "../dist/2.0/run.sh"),
                              ("logs", "../logs")],
                  version := some "2.0", hasPid := false },
    runNew := none, runOld := none }

/-! ## C9 model: `appdeploy_package_load_config` and
`appdeploy_package_load` (`appdeploy.py:774`-816)

The outside world enters through the outcome of reading `conf.toml`:
for a directory source, `none` means no `conf.toml`, `some (.error ())`
a file whose read or TOML parse raises, `some (.ok c)` a parsed
configuration.  For an archive source, `.error ()` models ANY exception
while opening the archive, extracting the member, decoding, or parsing
TOML (the `try/except: pass` at `appdeploy.py:780`-788), `.ok none` an
archive without a `conf.toml` member, and `.ok (some c)` a parsed one.
Only the `[package] name/version` keys matter to the claims. -/

/-- The `[package]` table of `conf.toml`. -/
structure PkgConfig where
  packageName : Option String
  packageVersion : Option String

deriving DecidableEq, Repr

/-- The empty configuration (`{}`). -/
def emptyConfig : PkgConfig := { packageName := none, packageVersion := none }

/-- A package source: directory (with its `conf.toml` outcome, its
basename, the optional `VERSION` file contents and optional git hash)
or archive (with its `conf.toml` extraction outcome and filename). -/
inductive PkgSource
  | dir (conf : Option (Except Unit PkgConfig)) (basename : String)
      (versionFile : Option String) (gitHash : Option String)
  | archive (conf : Except Unit (Option PkgConfig)) (filename : String)

deriving DecidableEq

/-- Inputs of `appdeploy_package_load`. -/
structure PkgInput where
  pathExists : Bool
  source : PkgSource
  cliName : Option String
  cliVersion : Option String

/-- Embedding of the `Package` dataclass fields the claims mention
(`appdeploy.py:100`-107). -/
structure Package where
  name : String
  version : String
  isArchive : Bool
  config : PkgConfig

deriving DecidableEq, Repr

/-- Embedding of `appdeploy_package_load_config`
(`appdeploy.py:774`-793): a directory's corrupt `conf.toml` propagates
the exception (line 792 has no try/except); an archive's extraction is
wrapped in `try/except: pass`, so every failure — including a corrupt
in-archive `conf.toml` — yields `{}`, as does a missing member. -/
def appdeploy_package_load_config : PkgSource → Except Unit PkgConfig
  | .dir none _ _ _ => .ok emptyConfig
  | .dir (some r) _ _ _ => r
  | .archive r _ =>
    .ok (match r with
      | .ok (some c) => c
      | _ => emptyConfig)

/-- Embedding of `appdeploy_package_resolve_name`
(`appdeploy.py:686`-701): CLI override, then `conf.toml`, then
directory basename, then archive-filename prefix. -/
def appdeploy_package_resolve_name (src : PkgSource) (config : PkgConfig)
    (cliName : Option String) : Except Unit String :=
  match cliName with
  | some n => .ok n
  | none =>
    match config.packageName with
    | some n => .ok n
    | none =>
      match src with
      | .dir _ basename _ _ => .ok basename
      | .archive _ filename =>
        match appdeploy_package_parse_archive filename with
        | .ok p => .ok p.1
        | .error _ => .error ()

/-- Embedding of `appdeploy_package_resolve_version`
(`appdeploy.py:704`-739): CLI override, then `conf.toml`, then the
`VERSION` file, then the git hash, then failure; archives parse the
filename. -/
def appdeploy_package_resolve_version (src : PkgSource) (config : PkgConfig)
    (cliVersion : Option String) : Except Unit String :=
  match cliVersion with
  | some v => .ok v
  | none =>
    match config.packageVersion with
    | some v => .ok v
    | none =>
      match src with
      | .dir _ _ (some vf) _ => .ok vf
      | .dir _ _ none (some gh) => .ok gh
      | .dir _ _ none none => .error ()
      | .archive _ filename =>
        match appdeploy_package_parse_archive filename with
        | .ok p => .ok p.2
        | .error _ => .error ()

/-- Embedding of `appdeploy_package_load` (`appdeploy.py:796`-816). -/
def appdeploy_package_load (inp : PkgInput) : Except Unit Package :=
  if ¬ inp.pathExists then .error ()
  else
    match appdeploy_package_load_config inp.source with
    | .error e => .error e
    | .ok config =>
      match appdeploy_package_resolve_name inp.source config inp.cliName with
      | .error e => .error e
      | .ok name =>
        match appdeploy_package_resolve_version inp.source config
            inp.cliVersion with
        | .error e => .error e
        | .ok version =>
          .ok { name := name, version := version,
                isArchive := (match inp.source with
                  | .dir _ _ _ _ => false
                  | .archive _ _ => true),
                config := config }

/-! ## C3 model: `appdeploy_cmd_upgrade` (`appdeploy.py:1836`-1914)

Each fallible external step of the upgrade state machine is given an
explicit boolean outcome in `UpgradeEnv`; an outcome of `false` means
that step's command failed (raised).  `raised` in `UpOutcome` marks an
exception propagating out of `appdeploy_cmd_upgrade`, `failed` a
`return False`, `success` a `return True`; at the command boundary both
`raised` and `failed` surface as a failed upgrade. -/

/-- The package being upgraded to: version, payload entry names, and
the uploaded archive filename. -/
structure UpgradePkg where
  name : String
  version : String
  entries : List String
  archiveName : String

deriving DecidableEq, Repr

/-- Outcomes of the upgrade's external steps. -/
structure UpgradeEnv where
  installOk : Bool
  stopOk : Bool
  startNewOk : Bool
  healthOk : Bool
  stopForceOk : Bool
  startPrevOk : Bool

deriving DecidableEq, Repr

/-- How `appdeploy_cmd_upgrade` terminates. -/
inductive UpOutcome
  | success
  | failed
  | raised

deriving DecidableEq, Repr

/-- `tar -x` into an existing `dist/<V>/` merges the payload with
whatever was already there (`appdeploy.py:1134`-1150: `mkdir -p` then
extract, no clearing). -/
def mergeEntries (old new : List String) : List String :=
  old ++ new.filter (fun e => ¬ e ∈ old)

/-- The `dist/` and `packages/` mutation performed by a successful
upload + extraction (`appdeploy.py:1125`-1150): the archive lands in
`packages/`, and `dist/<V>/` afterwards holds the merge of its previous
contents with the payload. -/
def installedRaw (fs : AppFs) (pkg : UpgradePkg) : AppFs :=
  { fs with
    packages :=
      if pkg.archiveName ∈ fs.packages then fs.packages
      else fs.packages ++ [pkg.archiveName],
    dist := (pkg.version,
        mergeEntries ((distLookup fs pkg.version).getD []) pkg.entries)
      :: fs.dist.filter (fun q => ¬ q.1 = pkg.version) }

/-- State after a successful install (upload + extract + clean). -/
def installClean (fs : AppFs) (pkg : UpgradePkg) (keep : Nat) : AppFs :=
  (appdeploy_target_clean (installedRaw fs pkg) pkg.name keep).1

/-- Embedding of `appdeploy_target_install` with `activate=False`
(`appdeploy.py:1079`-1118): ensure directories, upload the archive to
`packages/`, extract into `dist/<V>/` (merging), then clean.  A failed
upload or extraction raises; the model reports it with the state
unchanged (the partial mutations it may leave touch only `packages/`
and `dist/`, never `run/`). -/
def appdeploy_target_install (fs : AppFs) (pkg : UpgradePkg) (keep : Nat)
    (installOk : Bool) : Except AppFs AppFs :=
  if ¬ installOk then .error fs
  else .ok (installClean fs pkg keep)

/-- Step 2 of the upgrade (`appdeploy.py:1870`-1875): when the app was
running, try a graceful stop; a stop failure is caught and only
warned about. -/
def stopStepState (fs1 : AppFs) (wasRunning stopOk : Bool) : AppFs :=
  if wasRunning then (if stopOk then clearRunPid fs1 else fs1) else fs1

/-- The rollback sequence shared by the S4 and S5 failure branches
(`appdeploy.py:1885`-1892, 1901-1907): re-activate the previous
version with `no_restart=True`, then start it when the app had been
running; either step raising propagates. -/
def upgradeRollback (fs : AppFs) (p : String) (wasRunning startPrevOk : Bool) :
    AppFs × UpOutcome :=
  match appdeploy_target_activate fs p true true .complete with
  | .error fsE => (fsE, .raised)
  | .ok fs6 =>
    if wasRunning then
      (if startPrevOk then (setRunPid fs6, .failed) else (fs6, .raised))
    else (fs6, .failed)

/-- Steps 4-7 of the upgrade, from the state `fs3` left by activating
the new version (`appdeploy.py:1880`-1914): start the new version; on
start failure roll back (when enabled and a previous version is known)
and return failure; health-check; on health failure force-stop, roll
back likewise, and return failure; otherwise return success. -/
def upgradePostActivate (fs3 : AppFs) (previousVersion : Option String)
    (wasRunning rollbackOnFail : Bool) (env : UpgradeEnv) : AppFs × UpOutcome :=
  if env.startNewOk then
    let fs4 := setRunPid fs3
    if env.healthOk then (fs4, .success)
    else
      match rollbackOnFail, previousVersion with
      | true, some p =>
        if ¬ env.stopForceOk then (fs4, .raised)
        else upgradeRollback (clearRunPid fs4) p wasRunning env.startPrevOk
      | _, _ => (fs4, .failed)
  else
    match rollbackOnFail, previousVersion with
    | true, some p => upgradeRollback fs3 p wasRunning env.startPrevOk
    | _, _ => (fs3, .failed)

/-- Embedding of `appdeploy_cmd_upgrade` (`appdeploy.py:1836`-1914):
read `previous_version` and `was_running`; install; stop the running
app (failure only warns); activate the new version with
`no_restart=True`; then start, health-check, and roll back on failure
per `upgradePostActivate`. -/
def appdeploy_cmd_upgrade (fs : AppFs) (pkg : UpgradePkg) (keep : Nat)
    (rollbackOnFail : Bool) (env : UpgradeEnv) : AppFs × UpOutcome :=
  match appdeploy_target_install fs pkg keep env.installOk with
  | .error fsE => (fsE, .raised)
  | .ok fs1 =>
    match appdeploy_target_activate (stopStepState fs1 (pidExists fs) env.stopOk)
        pkg.version true true .complete with
    | .error fsE => (fsE, .raised)
    | .ok fs3 =>
      upgradePostActivate fs3 (activeVersion fs) (pidExists fs) rollbackOnFail env

/-- A state whose `run/` is an honest composed view: no leftover
staging or backup directory, and the run directory is the layer
composition of the version named by its `.version` file. -/
def wfAppFs (fs : AppFs) : Prop :=
  fs.runNew = none ∧ fs.runOld = none ∧
  ∀ rd, fs.run = some rd → ∃ v0, rd.version = some v0 ∧
    rd.entries = (appdeploy_target_populate_run fs v0 emptyRunDir).entries

/-- C3 counterexample state: version `1.0` is installed and active,
`run/` honestly materializing its one-entry composed view. -/
def c3StaleFs : AppFs :=
  { dist := [("1.0", ["run.sh"])], dataEntries := [], confEntries := [],
    packages := ["app-1.0.tar.gz"],
    run := some { entries := [("run.sh", "../dist/1.0/run.sh"),
                              ("logs", "../logs")],
                  version := some "1.0", hasPid := false },
    runNew := none, runOld := none }

/-- C3 counterexample package: a rebuilt `1.0` archive that now ships
an additional `extra` entry. -/
def c3StalePkg : UpgradePkg :=
  { name := "app", version := "1.0", entries := ["run.sh", "extra"],
    archiveName := "app-1.0.tar.gz" }

/-- C3 counterexample environment: install succeeds, the S4 start
fails, everything else would succeed. -/
def c3StaleEnv : UpgradeEnv :=
  { installOk := true, stopOk := true, startNewOk := false, healthOk := true,
    stopForceOk := true, startPrevOk := true }

/-- C3 witness state: version `1.0` installed, active and running. -/
def c3WitnessFs : AppFs :=
  { dist := [("1.0", ["app.py"])], dataEntries := [], confEntries := [],
    packages := [],
    run := some { entries := [("app.py", "../dist/1.0/app.py"),
                              ("logs", "../logs")],
                  version := some "1.0", hasPid := true },
    runNew := none, runOld := none }

/-- C3 witness package: version `2.0`. -/
def c3WitnessPkg : UpgradePkg :=
  { name := "app", version := "2.0", entries := ["app.py"],
    archiveName := "app-2.0.tar.gz" }

/-- C3 witness environment: the S5 health check fails, everything else
succeeds. -/
def c3WitnessEnv : UpgradeEnv :=
  { installOk := true, stopOk := true, startNewOk := true, healthOk := false,
    stopForceOk := true, startPrevOk := true }

/-- The state the witness upgrade ends in: rolled back to `1.0`,
running, with `2.0` still installed under `dist/`. -/
def c3WitnessResult : AppFs :=
  { dist := [("2.0", ["app.py"]), ("1.0", ["app.py"])], dataEntries := [],
    confEntries := [], packages := ["app-2.0.tar.gz"],
    run := some { entries := [("app.py", "../dist/1.0/app.py"),
                              ("logs", "../logs")],
                  version := some "1.0", hasPid := true },
    runNew := none, runOld := none }

/-! ### Lemmas about the archive-name grammar -/

lemma isHexDigitChar_dash : isHexDigitChar '-' = false := rfl

lemma startsVersionMatch_nil : startsVersionMatch [] = false := rfl

/-- A hyphen right after `xs` cannot extend a version match that starts
inside `xs`: the regex match test only sees `xs` itself. -/
lemma startsVersionMatch_append_dash (xs v : List Char) :
    startsVersionMatch (xs ++ '-' :: v) = startsVersionMatch xs := by
  unfold startsVersionMatch
  rcases Nat.lt_or_ge xs.length 7 with h7 | h7
  · have hx : xs.take 7 = xs := List.take_of_length_le (by omega)
    have ht : (xs ++ '-' :: v).take 7 = xs ++ ('-' :: v).take (7 - xs.length) := by
      rw [List.take_append_eq_append_take, hx]
    have hstep : 7 - xs.length = (6 - xs.length) + 1 := by omega
    have hall : ((xs ++ '-' :: v).take 7).all isHexDigitChar = false := by
      rw [ht, hstep, List.take_succ_cons, List.all_append, List.all_cons,
        isHexDigitChar_dash]
      simp
    have hlen : ((xs.take 7).length == 7) = false := by
      rw [hx]; simp; omega
    rw [hall, hlen]
    cases xs with
    | nil => simp
    | cons c cs => simp
  · have ht : (xs ++ '-' :: v).take 7 = xs.take 7 := by
      rw [List.take_append_eq_append_take, Nat.sub_eq_zero_of_le h7]
      simp
    rw [ht]
    cases xs with
    | nil => simp at h7
    | cons c cs => rfl

/-- If the regex finds no split point inside `nm` and `v` starts a valid
version, then the first split point of `nm ++ "-" ++ v` is exactly the
joining hyphen. -/
lemma findSplit_append (nm v : List Char) (hnm : findSplit nm = none)
    (hv : startsVersionMatch v = true) :
    findSplit (nm ++ '-' :: v) = some nm.length := by
  induction nm with
  | nil => simp [findSplit, hv]
  | cons c cs ih =>
    rw [List.cons_append]
    unfold findSplit at hnm ⊢
    by_cases hc : (decide (c = '-') && startsVersionMatch cs) = true
    · rw [if_pos hc] at hnm
      exact absurd hnm (by simp)
    · rw [if_neg hc] at hnm
      have hcs : findSplit cs = none := by
        cases h : findSplit cs
        · rfl
        · rw [h] at hnm; simp at hnm
      have hcond : ¬ (decide (c = '-') && startsVersionMatch (cs ++ '-' :: v)) = true := by
        rw [startsVersionMatch_append_dash]; exact hc
      rw [if_neg hcond, ih hcs]
      simp

/-- Appending to the front cannot change a suffix test against a shorter
suffix of the appended part. -/
lemma listEndsWith_append_of_le (xs e ext : List Char) (h : ext.length ≤ e.length) :
    listEndsWith (xs ++ e) ext = listEndsWith e ext := by
  have hlen : ext.length ≤ (xs ++ e).length := by
    rw [List.length_append]; omega
  have hdrop : (xs ++ e).drop ((xs ++ e).length - ext.length)
      = e.drop (e.length - ext.length) := by
    rw [List.length_append]
    have h2 : xs.length + e.length - ext.length
        = xs.length + (e.length - ext.length) := by
      omega
    rw [h2, ← List.drop_drop, List.drop_left]
  unfold listEndsWith
  rw [hdrop, decide_eq_true hlen, decide_eq_true h]

/-- If a long candidate suffix does not itself end with the actually
appended tail, it is not a suffix of the extended list either. -/
lemma listEndsWith_append_of_longer (xs e ext : List Char) (hlt : e.length < ext.length)
    (h : listEndsWith ext e = false) : listEndsWith (xs ++ e) ext = false := by
  by_contra hcon
  rw [Bool.not_eq_false] at hcon
  unfold listEndsWith at hcon
  rw [Bool.and_eq_true] at hcon
  obtain ⟨h1, h2⟩ := hcon
  rw [decide_eq_true_eq] at h1 h2
  have hsub : ext.drop (ext.length - e.length) = e := by
    have hstep : ((xs ++ e).length - ext.length) + (ext.length - e.length)
        = xs.length := by
      rw [List.length_append] at h1 ⊢; omega
    calc ext.drop (ext.length - e.length)
        = ((xs ++ e).drop ((xs ++ e).length - ext.length)).drop (ext.length - e.length) := by
          rw [h2]
      _ = (xs ++ e).drop (((xs ++ e).length - ext.length) + (ext.length - e.length)) := by
          rw [List.drop_drop, Nat.add_comm]
      _ = e := by rw [hstep, List.drop_left]
  unfold listEndsWith at h
  rw [hsub] at h
  simp at h
  omega

lemma listEndsWith_append_self (xs e : List Char) :
    listEndsWith (xs ++ e) e = true := by
  unfold listEndsWith
  rw [List.length_append, Nat.add_sub_cancel, List.drop_left]
  simp

lemma stripKnownExtension_gz (bs : List Char) :
    stripKnownExtension (String.mk (bs ++ (".tar.gz" : String).data))
      = String.mk bs := by
  unfold stripKnownExtension
  rw [if_pos (listEndsWith_append_self bs _)]
  unfold dropSuffix
  simp [List.length_append]

lemma stripKnownExtension_bz2 (bs : List Char) :
    stripKnownExtension (String.mk (bs ++ (".tar.bz2" : String).data))
      = String.mk bs := by
  unfold stripKnownExtension
  rw [if_neg (by rw [listEndsWith_append_of_le _ _ _ (by decide)]; decide),
    if_pos (listEndsWith_append_self bs _)]
  unfold dropSuffix
  simp [List.length_append]

lemma stripKnownExtension_xz (bs : List Char) :
    stripKnownExtension (String.mk (bs ++ (".tar.xz" : String).data))
      = String.mk bs := by
  unfold stripKnownExtension
  rw [if_neg (by rw [listEndsWith_append_of_le _ _ _ (by decide)]; decide),
    if_neg (by
      rw [listEndsWith_append_of_longer _ _ _ (by decide) (by decide)]; decide),
    if_pos (listEndsWith_append_self bs _)]
  unfold dropSuffix
  simp [List.length_append]

/-- Stripping the extension that `appdeploy_package_create` appended
recovers the `NAME-VERSION` stem. -/
lemma stripKnownExtension_create (bs : List Char) (compression : String) :
    stripKnownExtension (String.mk (bs ++ (createExtension compression).data))
      = String.mk bs := by
  unfold createExtension
  by_cases h1 : compression = "gz"
  · rw [if_pos h1]; exact stripKnownExtension_gz bs
  · rw [if_neg h1]
    by_cases h2 : compression = "bz2"
    · rw [if_pos h2]; exact stripKnownExtension_bz2 bs
    · rw [if_neg h2]
      by_cases h3 : compression = "xz"
      · rw [if_pos h3]; exact stripKnownExtension_xz bs
      · rw [if_neg h3]; exact stripKnownExtension_gz bs

/-! ### Claim C6 -/

/-- Claim C6 counterexample: the pair `("app-2", "1.0")` is a valid
(name, version) pair — both are non-empty printable identifiers without
path separators or whitespace, and the version starts with a digit —
yet parsing the archive filename `appdeploy_package_create` would
produce for it does not return the pair: the split point regex fires at
the first hyphen-digit boundary inside the name, yielding
`("app", "2-1.0")`. -/
theorem c6_roundtrip_counterexample :
    appdeploy_package_create_filename "app-2" "1.0" "gz" = "app-2-1.0.tar.gz" ∧
    appdeploy_package_parse_archive "app-2-1.0.tar.gz"
      = .ok ("app", "2-1.0") ∧
    (("app" : String), ("2-1.0" : String)) ≠ (("app-2" : String), ("1.0" : String)) := by
  refine ⟨by decide, by decide, by decide⟩

/-- Claim C6 (amended): for every valid (name, version) pair where the
version starts with a digit or a run of at least 7 hexadecimal
characters AND the name itself contains no hyphen followed by a digit
or by such a hex run, parsing the archive filename produced by
`appdeploy_package_create` returns exactly (name, version). -/
theorem c6_roundtrip (name version compression : String)
    (hn : name ≠ "")
    (hv : startsVersionMatch version.data = true)
    (hname : findSplit name.data = none) :
    appdeploy_package_parse_archive
        (appdeploy_package_create_filename name version compression)
      = .ok (name, version) := by
  have h1 : appdeploy_package_create_filename name version compression
      = String.mk ((name.data ++ '-' :: version.data)
          ++ (createExtension compression).data) := by
    apply String.ext
    show ((name.data ++ ('-' :: [])) ++ version.data)
        ++ (createExtension compression).data = _
    simp
  rw [h1]
  unfold appdeploy_package_parse_archive
  rw [stripKnownExtension_create]
  have hsplit : findSplit (name.data ++ '-' :: version.data)
      = some name.data.length :=
    findSplit_append name.data version.data hname hv
  have htake : (name.data ++ '-' :: version.data).take name.data.length
      = name.data := List.take_left _ _
  have hdrop : (name.data ++ '-' :: version.data).drop (name.data.length + 1)
      = version.data := by
    have h2 : name.data ++ '-' :: version.data
        = (name.data ++ ['-']) ++ version.data := by simp
    have h3 : name.data.length + 1 = (name.data ++ ['-']).length := by simp
    rw [h2, h3, List.drop_left]
  simp only [hsplit, htake, hdrop]
  have hmkname : String.mk name.data = name := rfl
  have hmkver : String.mk version.data = version := rfl
  rw [hmkname, hmkver]
  have hvne : version ≠ "" := by
    intro h
    rw [h] at hv
    exact absurd hv (by decide)
  rw [if_neg hn, if_neg hvne]

/-- Witness for C6 (amended) at the concrete pair from scenario 1 of the
spec: name `svc`, version `1.0`, gzip compression. -/
theorem c6_roundtrip_witness :
    appdeploy_package_parse_archive
        (appdeploy_package_create_filename "svc" "1.0" "gz")
      = .ok ("svc", "1.0") :=
  c6_roundtrip "svc" "1.0" "gz" (by decide) (by decide) (by decide)

/-! ### Claim C7 -/

/-- Claim C7 counterexample: with neither force flag set and `C:\foo`
not existing as a local directory, `appdeploy_target_parse` classifies
`C:\foo` as a REMOTE hostname (the drive-letter guard only skips the
`host:path` split; the final fallback then treats the whole string as a
remote host), not as a local target as the claim states. -/
theorem c7_windows_counterexample :
    appdeploy_target_parse plainParseEnv "C:\\foo" false false
      = .ok { host := some "C:\\foo", user := none, path := "/opt/apps",
              isRemote := true } := by
  decide

/-- Claim C7 (amended): with neither force flag set, `C:\foo` is never
split at its colon into host and path (the drive-letter guard); when it
does not exist as a local directory it falls through to the remote
hostname fallback with the default base path. The other boundary cases
hold as claimed: `user@host:/path` and `host:relative` are remote
splits, `./dir` is local (tilde/dot expansion applied), and bare
`localhost` (when no such local directory exists) is local with the
default base path. -/
theorem c7_target_boundaries (env : ParseEnv)
    (h1 : env.existsAsDir "C:\\foo" = false)
    (h2 : env.existsAsDir "localhost" = false) :
    appdeploy_target_parse env "C:\\foo" false false
      = .ok { host := some "C:\\foo", user := none, path := env.defaultPath,
              isRemote := true } ∧
    appdeploy_target_parse env "user@host:/path" false false
      = .ok { host := some "host", user := some "user", path := "/path",
              isRemote := true } ∧
    appdeploy_target_parse env "host:relative" false false
      = .ok { host := some "host", user := none, path := "relative",
              isRemote := true } ∧
    appdeploy_target_parse env "./dir" false false
      = .ok { host := none, user := none, path := env.expandUser "./dir",
              isRemote := false } ∧
    appdeploy_target_parse env "localhost" false false
      = .ok { host := none, user := none, path := env.defaultPath,
              isRemote := false } := by
  refine ⟨?_, ?_, ?_, ?_, ?_⟩
  · unfold appdeploy_target_parse
    simp only [h1,
      show strContainsChar "C:\\foo" '@' = false from by decide,
      show strContainsChar "C:\\foo" ':' = true from by decide,
      show charIndexL ("C:\\foo" : String).data ':' = some 1 from by decide,
      show (("C:\\foo" : String).data.headD ' ') = 'C' from by decide,
      show ¬(('C').isAlpha = false) from by decide,
      show startsWithLocalPattern "C:\\foo" = false from by decide,
      show ¬(("C:\\foo" : String) = "localhost") from by decide,
      show ¬(("C:\\foo" : String) = "127.0.0.1") from by decide]
    norm_num
  · unfold appdeploy_target_parse
    simp only [
      show strContainsChar "user@host:/path" '@' = true from by decide,
      show strPartition "user@host:/path" ':' = ("user@host", "/path") from by
        decide,
      show strRPartition "user@host" '@' = ("user", "host") from by decide]
    norm_num
    exact ⟨fun hh => absurd hh (by decide), fun hh => absurd hh (by decide)⟩
  · unfold appdeploy_target_parse
    simp only [
      show strContainsChar "host:relative" '@' = false from by decide,
      show strContainsChar "host:relative" ':' = true from by decide,
      show charIndexL ("host:relative" : String).data ':' = some 4 from by
        decide,
      show strPartition "host:relative" ':' = ("host", "relative") from by
        decide]
    norm_num
    exact fun hh => absurd hh (by decide)
  · unfold appdeploy_target_parse
    simp only [
      show strContainsChar "./dir" '@' = false from by decide,
      show strContainsChar "./dir" ':' = false from by decide,
      show startsWithLocalPattern "./dir" = true from by decide]
    norm_num
  · unfold appdeploy_target_parse
    simp only [h2,
      show strContainsChar "localhost" '@' = false from by decide,
      show strContainsChar "localhost" ':' = false from by decide,
      show startsWithLocalPattern "localhost" = false from by decide]
    norm_num

/-- Witness for C7 (amended) in the concrete environment where no
candidate string exists as a local directory. -/
theorem c7_target_boundaries_witness :
    appdeploy_target_parse plainParseEnv "host:relative" false false
      = .ok { host := some "host", user := none, path := "relative",
              isRemote := true } :=
  (c7_target_boundaries plainParseEnv (by decide) (by decide)).2.2.1

lemma daemonctl_supervisor_loop_exhausts (m e : Nat) (hm : 0 < m) :
    ∀ fuel restartCount counts, restartCount ≤ m →
    m + 1 - restartCount ≤ fuel →
    daemonctl_supervisor_loop true m e fuel restartCount counts
      = some ({ spawns := counts.spawns + (m + 1 - restartCount),
                onStartHooks := counts.onStartHooks + (m + 1 - restartCount),
                onStopHooks := counts.onStopHooks + (m + 1 - restartCount) },
              1) := by
  intro fuel
  induction fuel with
  | zero =>
    intro restartCount counts h1 h2
    omega
  | succ n ih =>
    intro restartCount counts h1 h2
    by_cases hrc : restartCount = m
    · unfold daemonctl_supervisor_loop
      rw [if_pos rfl, if_pos (by omega)]
      have hone : m + 1 - restartCount = 1 := by omega
      rw [hone]
    · have hlt : restartCount < m := by omega
      unfold daemonctl_supervisor_loop
      rw [if_pos rfl, if_neg (by omega)]
      rw [ih (restartCount + 1) _ (by omega) (by omega)]
      have ha : counts.spawns + 1 + (m + 1 - (restartCount + 1))
          = counts.spawns + (m + 1 - restartCount) := by omega
      have hb : counts.onStartHooks + 1 + (m + 1 - (restartCount + 1))
          = counts.onStartHooks + (m + 1 - restartCount) := by omega
      have hc : counts.onStopHooks + 1 + (m + 1 - (restartCount + 1))
          = counts.onStopHooks + (m + 1 - restartCount) := by omega
      rw [ha, hb, hc]

/-! ### Claim C4 -/

/-- Claim C4 counterexample: with `restart = true`,
`max_attempts = 3`, `restart_delay = 0` and a child that always exits
immediately with code 7, the supervisor performs FOUR spawn attempts
(one initial start plus three restarts) and runs the on-start and
on-stop hooks four times each before returning 1; the claim's "exactly
three spawn attempts / hooks three times each" is false. -/
theorem c4_supervisor_counterexample :
    daemonctl_supervisor_run true 3 7 10
      = some ({ spawns := 4, onStartHooks := 4, onStopHooks := 4 }, 1) ∧
    (4 : Nat) ≠ 3 := by
  exact ⟨by decide, by decide⟩

/-- Claim C4 (amended): with restart enabled and `max_attempts = M`
(`M > 0`), a child that always exits immediately causes exactly `M`
restart attempts after the initial start — hence `M + 1` spawn attempts
in total, with the on-start and on-stop hooks each invoked `M + 1`
times — and the supervisor then returns 1 (non-zero).  Concretely, for
`max_attempts = 3` there are four spawns and four invocations of each
hook, regardless of the child's exit code. -/
theorem c4_supervisor_exhaustion (m childExit fuel : Nat) (hm : 0 < m)
    (hfuel : m + 1 ≤ fuel) :
    daemonctl_supervisor_run true m childExit fuel
      = some ({ spawns := m + 1, onStartHooks := m + 1,
                onStopHooks := m + 1 }, 1) := by
  unfold daemonctl_supervisor_run
  rw [daemonctl_supervisor_loop_exhausts m childExit hm fuel 0 _ (by omega)
    (by omega)]
  norm_num

/-- Witness for C4 (amended): `max_attempts = 3`, exit code 7, minimal
sufficient fuel. -/
theorem c4_supervisor_exhaustion_witness :
    daemonctl_supervisor_run true 3 7 4
      = some ({ spawns := 4, onStartHooks := 4, onStopHooks := 4 }, 1) := by
  have h := c4_supervisor_exhaustion 3 7 4 (by decide) (by decide)
  simpa using h

lemma fsExists_removeTree_self (w : FsWorld) (p : String) :
    fsExists (fsRemoveTree w p) p = false := by
  simp [fsExists, fsRemoveTree, List.any_eq_true]
  intro a b _ h1 _
  exact h1

lemma fsExists_removeSingle_self (w : FsWorld) (p : String) :
    fsExists (fsRemoveSingle w p) p = false := by
  simp [fsExists, fsRemoveSingle, List.any_eq_true]

/-! ### Claim C8 -/

/-- Claim C8 counterexample: on a remote target in dry-run mode, the
read-only operation `exists` does NOT execute against the target: it
goes through `appdeploy_exec_run`, whose dry-run short-circuit returns
exit code 0 unconditionally, so `exists` reports `true` for a path that
does not exist (and would report `false` outside dry-run mode). -/
theorem c8_dry_run_counterexample :
    appdeploy_exec_exists true true ([] : FsWorld) "/x" = true ∧
    appdeploy_exec_exists false true ([] : FsWorld) "/x" = false := by
  exact ⟨rfl, rfl⟩

/-- Claim C8 (amended): in dry-run mode every mutating operation (run
with side effects, copy, mkdir, rm, symlink, rename) succeeds while
leaving the target's state completely unchanged.  The read-only
operations still execute and return the real result only on LOCAL
targets; on remote targets they are routed through the dry-run
short-circuit of `run`, so `exists` always returns true and `read`
always returns the empty string. -/
theorem c8_dry_run (w : FsWorld) (p src dst lnk tgt content : String)
    (recursive : Bool) (eff : FsWorld → FsWorld) (code : Nat) (out : String) :
    appdeploy_exec_run true w (.generic eff code out)
      = (w, { returncode := 0, stdout := "", stderr := "" }) ∧
    appdeploy_exec_copy true w content dst = w ∧
    appdeploy_exec_mkdir true w p = w ∧
    appdeploy_exec_rm true w p recursive = .ok w ∧
    appdeploy_exec_symlink true w lnk tgt = w ∧
    appdeploy_exec_rename true w src dst = w ∧
    appdeploy_exec_exists true false w p = appdeploy_exec_exists false false w p ∧
    appdeploy_exec_read true false w p = appdeploy_exec_read false false w p ∧
    appdeploy_exec_exists true true w p = true ∧
    appdeploy_exec_read true true w p = .ok "" := by
  refine ⟨rfl, rfl, rfl, rfl, rfl, rfl, rfl, rfl, rfl, rfl⟩

/-! ### Claim C10 -/

/-- Claim C10 (confirmed): the executor's `rm` is idempotent — removing
a path that does not exist succeeds without error and leaves the world
unchanged, and performing `rm` twice is the same as performing it
once. -/
theorem c10_rm_idempotent (dryRun : Bool) (w : FsWorld) (p : String)
    (recursive : Bool) :
    (fsExists w p = false → appdeploy_exec_rm dryRun w p recursive = .ok w) ∧
    ((appdeploy_exec_rm dryRun w p recursive).bind
        (fun w2 => appdeploy_exec_rm dryRun w2 p recursive)
      = appdeploy_exec_rm dryRun w p recursive) := by
  constructor
  · intro h
    unfold appdeploy_exec_rm
    cases dryRun with
    | true => rfl
    | false => simp [h]
  · cases dryRun with
    | true => rfl
    | false =>
      by_cases hex : fsExists w p = false
      · rw [(by unfold appdeploy_exec_rm; simp [hex] :
          appdeploy_exec_rm false w p recursive = .ok w)]
        unfold appdeploy_exec_rm
        simp [Except.bind, hex]
      · rw [Bool.not_eq_false] at hex
        unfold appdeploy_exec_rm
        simp only [hex]
        by_cases hd : fsIsDir w p = true
        · cases recursive with
          | true =>
            simp [hd, Except.bind, fsExists_removeTree_self]
          | false =>
            simp [hd, Except.bind]
        · simp only [Bool.not_eq_true] at hd
          simp [hd, Except.bind, fsExists_removeSingle_self]

/-- Witness for C10 at a concrete world: removing a missing path from a
world holding one unrelated file succeeds and changes nothing. -/
theorem c10_rm_idempotent_witness :
    fsExists [(("/a" : String), FsNode.dir)] "/x" = false ∧
    appdeploy_exec_rm false [(("/a" : String), FsNode.dir)] "/x" true
      = .ok [(("/a" : String), FsNode.dir)] := by
  refine ⟨by decide, ?_⟩
  exact (c10_rm_idempotent false [(("/a" : String), FsNode.dir)] "/x" true).1
    (by decide)

lemma activateFinishPhase_ok (fsPre : AppFs) (staged : RunDir)
    (wasRunning noRestart restartOk : Bool) (stop : ActStop) (fs2 : AppFs)
    (h : activateFinishPhase fsPre staged wasRunning noRestart restartOk stop
      = .ok fs2) :
    (∃ rd, fs2.run = some rd ∧ rd.version = staged.version ∧
      rd.entries = staged.entries) ∧
    fs2.runNew = none ∧ fs2.runOld = none := by
  unfold activateFinishPhase at h
  split_ifs at h with h1 h2 h3 h4 <;> simp_all [setRunPid] <;>
    subst h <;> simp

lemma activateFinishPhase_error (fsPre : AppFs) (staged : RunDir)
    (wasRunning noRestart restartOk : Bool) (stop : ActStop) (fs2 : AppFs)
    (h : activateFinishPhase fsPre staged wasRunning noRestart restartOk stop
      = .error fs2) :
    (∃ rd, fs2.run = some rd ∧ rd.version = staged.version) ∧
    fs2.runNew = none := by
  unfold activateFinishPhase at h
  split_ifs at h with h1 h2 h3 h4 <;> simp_all [setRunPid] <;>
    subst h <;> simp

/-- Claim C1 (amended), part of the supporting analysis: every outcome
of an activation run.  On success, `run/.version` equals the requested
version; the idempotent early return leaves the state exactly
unchanged; a success that performed the swap leaves no `run.new/` or
`run.old/` sibling.  On failure, `run/` is untouched, or it has been
moved whole to `run.old/` (the window between the two renames), or the
swap had already completed (`run/.version = V`, no `run.new/`) and only
the post-swap restart or cleanup failed. -/
theorem c1_activation_outcomes (fs : AppFs) (v : String)
    (noRestart restartOk : Bool) (stop : ActStop) :
    (∀ fs2, appdeploy_target_activate fs v noRestart restartOk stop = .ok fs2 →
      activeVersion fs2 = some v ∧
      (activeVersion fs = some v → fs2 = fs) ∧
      (¬ activeVersion fs = some v → fs2.runNew = none ∧ fs2.runOld = none)) ∧
    (∀ fs2, appdeploy_target_activate fs v noRestart restartOk stop = .error fs2 →
      fs2.run = fs.run ∨
      (fs2.run = none ∧ fs2.runOld = fs.run) ∨
      (activeVersion fs2 = some v ∧ fs2.runNew = none)) := by
  have hstagedv : (stagedRunDir fs v).version = some v := rfl
  have okSwap : ∀ (fs2 fsPre : AppFs) (wr : Bool) (st : ActStop),
      ¬ activeVersion fs = some v →
      activateFinishPhase fsPre (stagedRunDir fs v) wr noRestart restartOk st
        = .ok fs2 →
      activeVersion fs2 = some v ∧
      (activeVersion fs = some v → fs2 = fs) ∧
      (¬ activeVersion fs = some v → fs2.runNew = none ∧ fs2.runOld = none) := by
    intro fs2 fsPre wr st hact hfin
    obtain ⟨⟨rd, hrun, hver, _⟩, hnew, holdn⟩ :=
      activateFinishPhase_ok _ _ _ _ _ _ _ hfin
    refine ⟨?_, fun hcon => absurd hcon hact, fun _ => ⟨hnew, holdn⟩⟩
    rw [activeVersion, hrun]
    show rd.version = some v
    rw [hver, hstagedv]
  have errSwap : ∀ (fs2 fsPre : AppFs) (wr : Bool) (st : ActStop),
      activateFinishPhase fsPre (stagedRunDir fs v) wr noRestart restartOk st
        = .error fs2 →
      fs2.run = fs.run ∨
      (fs2.run = none ∧ fs2.runOld = fs.run) ∨
      (activeVersion fs2 = some v ∧ fs2.runNew = none) := by
    intro fs2 fsPre wr st hfin
    obtain ⟨⟨rd, hrun, hver⟩, hnew⟩ :=
      activateFinishPhase_error _ _ _ _ _ _ _ hfin
    refine Or.inr (Or.inr ⟨?_, hnew⟩)
    rw [activeVersion, hrun]
    show rd.version = some v
    rw [hver, hstagedv]
  constructor
  · intro fs2 h
    unfold appdeploy_target_activate at h
    by_cases hd : (distLookup fs v).isNone
    · rw [if_pos hd] at h
      exact absurd h (by simp)
    · rw [if_neg hd] at h
      by_cases hact : activeVersion fs = some v
      · rw [if_pos hact] at h
        by_cases hstop : stop = .beforeMutation
        · rw [if_pos hstop] at h
          exact absurd h (by simp)
        · rw [if_neg hstop] at h
          simp only [Except.ok.injEq] at h
          subst h
          exact ⟨hact, fun _ => rfl, fun hcon => absurd hact hcon⟩
      · rw [if_neg hact] at h
        cases stop
        · dsimp only [] at h
          exact absurd h (by simp)
        · dsimp only [] at h
          exact absurd h (by simp)
        · dsimp only [] at h
          exact absurd h (by simp)
        · dsimp only [] at h
          exact absurd h (by simp)
        · dsimp only [] at h
          exact absurd h (by simp)
        · dsimp only [] at h
          cases hr : fs.run with
          | some rd0 =>
            rw [hr] at h
            dsimp only [] at h
            by_cases hold : fs.runOld.isSome
            · rw [if_pos hold] at h
              exact absurd h (by simp)
            · rw [if_neg hold, if_pos rfl] at h
              exact absurd h (by simp)
          | none =>
            rw [hr] at h
            dsimp only [] at h
            exact okSwap _ _ _ _ hact h
        · dsimp only [] at h
          cases hr : fs.run with
          | some rd0 =>
            rw [hr] at h
            dsimp only [] at h
            by_cases hold : fs.runOld.isSome
            · rw [if_pos hold] at h
              exact absurd h (by simp)
            · rw [if_neg hold, if_neg (by decide)] at h
              exact okSwap _ _ _ _ hact h
          | none =>
            rw [hr] at h
            dsimp only [] at h
            exact okSwap _ _ _ _ hact h
        · dsimp only [] at h
          cases hr : fs.run with
          | some rd0 =>
            rw [hr] at h
            dsimp only [] at h
            by_cases hold : fs.runOld.isSome
            · rw [if_pos hold] at h
              exact absurd h (by simp)
            · rw [if_neg hold, if_neg (by decide)] at h
              exact okSwap _ _ _ _ hact h
          | none =>
            rw [hr] at h
            dsimp only [] at h
            exact okSwap _ _ _ _ hact h
        · dsimp only [] at h
          cases hr : fs.run with
          | some rd0 =>
            rw [hr] at h
            dsimp only [] at h
            by_cases hold : fs.runOld.isSome
            · rw [if_pos hold] at h
              exact absurd h (by simp)
            · rw [if_neg hold, if_neg (by decide)] at h
              exact okSwap _ _ _ _ hact h
          | none =>
            rw [hr] at h
            dsimp only [] at h
            exact okSwap _ _ _ _ hact h
  · intro fs2 h
    unfold appdeploy_target_activate at h
    by_cases hd : (distLookup fs v).isNone
    · rw [if_pos hd] at h
      simp only [Except.error.injEq] at h
      subst h
      exact Or.inl rfl
    · rw [if_neg hd] at h
      by_cases hact : activeVersion fs = some v
      · rw [if_pos hact] at h
        by_cases hstop : stop = .beforeMutation
        · rw [if_pos hstop] at h
          simp only [Except.error.injEq] at h
          subst h
          exact Or.inl rfl
        · rw [if_neg hstop] at h
          exact absurd h (by simp)
      · rw [if_neg hact] at h
        cases stop
        · dsimp only [] at h
          simp only [Except.error.injEq] at h
          subst h
          exact Or.inl rfl
        · dsimp only [] at h
          simp only [Except.error.injEq] at h
          subst h
          exact Or.inl rfl
        · dsimp only [] at h
          simp only [Except.error.injEq] at h
          subst h
          exact Or.inl rfl
        · dsimp only [] at h
          simp only [Except.error.injEq] at h
          subst h
          exact Or.inl rfl
        · dsimp only [] at h
          simp only [Except.error.injEq] at h
          subst h
          exact Or.inl rfl
        · dsimp only [] at h
          cases hr : fs.run with
          | some rd0 =>
            rw [hr] at h
            dsimp only [] at h
            by_cases hold : fs.runOld.isSome
            · rw [if_pos hold] at h
              simp only [Except.error.injEq] at h
              subst h
              exact Or.inl rfl
            · rw [if_neg hold, if_pos rfl] at h
              simp only [Except.error.injEq] at h
              subst h
              exact Or.inr (Or.inl ⟨rfl, rfl⟩)
          | none =>
            rw [hr] at h
            dsimp only [] at h
            have h9 := errSwap _ _ _ _ h
            rw [hr] at h9
            exact h9
        · dsimp only [] at h
          cases hr : fs.run with
          | some rd0 =>
            rw [hr] at h
            dsimp only [] at h
            by_cases hold : fs.runOld.isSome
            · rw [if_pos hold] at h
              simp only [Except.error.injEq] at h
              subst h
              exact Or.inl rfl
            · rw [if_neg hold, if_neg (by decide)] at h
              have h9 := errSwap _ _ _ _ h
              rw [hr] at h9
              exact h9
          | none =>
            rw [hr] at h
            dsimp only [] at h
            have h9 := errSwap _ _ _ _ h
            rw [hr] at h9
            exact h9
        · dsimp only [] at h
          cases hr : fs.run with
          | some rd0 =>
            rw [hr] at h
            dsimp only [] at h
            by_cases hold : fs.runOld.isSome
            · rw [if_pos hold] at h
              simp only [Except.error.injEq] at h
              subst h
              exact Or.inl rfl
            · rw [if_neg hold, if_neg (by decide)] at h
              have h9 := errSwap _ _ _ _ h
              rw [hr] at h9
              exact h9
          | none =>
            rw [hr] at h
            dsimp only [] at h
            have h9 := errSwap _ _ _ _ h
            rw [hr] at h9
            exact h9
        · dsimp only [] at h
          cases hr : fs.run with
          | some rd0 =>
            rw [hr] at h
            dsimp only [] at h
            by_cases hold : fs.runOld.isSome
            · rw [if_pos hold] at h
              simp only [Except.error.injEq] at h
              subst h
              exact Or.inl rfl
            · rw [if_neg hold, if_neg (by decide)] at h
              have h9 := errSwap _ _ _ _ h
              rw [hr] at h9
              exact h9
          | none =>
            rw [hr] at h
            dsimp only [] at h
            have h9 := errSwap _ _ _ _ h
            rw [hr] at h9
            exact h9

/-- Claim C1 counterexample: activating the already-active version from
a state with a stale `run.old/` terminates successfully via the
idempotent early return (`appdeploy.py:1235`-1239) but leaves the
`run.old/` sibling in place, contradicting outcome (a) of the claim;
the run did not fail, so outcome (b) does not apply either. -/
theorem c1_activation_counterexample :
    appdeploy_target_activate c1StaleFs "1.0" true true .complete
      = .ok c1StaleFs ∧
    c1StaleFs.runOld ≠ none := by
  exact ⟨by decide, by decide⟩

/-- Witness for C1 (amended) at a concrete fresh-target activation. -/
theorem c1_activation_outcomes_witness :
    activeVersion c1WitnessResult = some "1.0" ∧
    c1WitnessResult.runNew = none ∧ c1WitnessResult.runOld = none := by
  have h := (c1_activation_outcomes c1WitnessFs "1.0" true true
    .complete).1 c1WitnessResult (by decide)
  exact ⟨h.1, h.2.2 (by decide)⟩

lemma getEntry_setEntry (es : List (String × String)) (k v x : String) :
    getEntry (setEntry es k v) x = if x = k then some v else getEntry es x := by
  induction es with
  | nil =>
    by_cases hx : x = k
    · subst hx
      simp [setEntry, getEntry]
    · have hkx : ¬ k = x := fun h => hx h.symm
      simp [setEntry, getEntry, hx, hkx]
  | cons e rest ih =>
    by_cases he : e.1 = k
    · by_cases hx : x = k
      · subst hx
        simp [setEntry, getEntry, he]
      · have hkx : ¬ k = x := fun h => hx h.symm
        have hex : ¬ e.1 = x := by rw [he]; exact hkx
        simp [setEntry, getEntry, he, hx, hkx, hex]
    · by_cases hx : x = k
      · subst hx
        have hex : ¬ e.1 = x := he
        simp [setEntry, getEntry, he, hex, ih]
      · by_cases hEx : e.1 = x
        · simp [setEntry, getEntry, he, hEx, hx]
        · simp [setEntry, getEntry, he, hEx, hx, ih]

lemma getEntry_removeEntry (es : List (String × String)) (k x : String) :
    getEntry (removeEntry es k) x = if x = k then none else getEntry es x := by
  induction es with
  | nil =>
    by_cases hx : x = k <;> simp [removeEntry, getEntry, hx]
  | cons e rest ih =>
    by_cases he : e.1 = k
    · by_cases hx : x = k
      · subst hx
        simp [removeEntry, he, ih]
      · have hkx : ¬ k = x := fun h => hx h.symm
        have hex : ¬ e.1 = x := by rw [he]; exact hkx
        simp [removeEntry, getEntry, he, hex, hkx, ih, hx]
    · by_cases hEx : e.1 = x
      · have hxk : ¬ x = k := fun h => he (by rw [hEx, h])
        simp [removeEntry, getEntry, he, hEx, hxk]
      · by_cases hx : x = k
        · subst hx
          simp [removeEntry, getEntry, he, hEx, ih]
        · simp [removeEntry, getEntry, he, hEx, ih, hx]

lemma getEntry_set_remove (es : List (String × String)) (k v x : String) :
    getEntry (setEntry (removeEntry es k) k v) x
      = if x = k then some v else getEntry es x := by
  rw [getEntry_setEntry]
  by_cases hx : x = k
  · simp [hx]
  · simp [hx, getEntry_removeEntry]

lemma getEntry_foldl_set (L : List String) (f : String → String)
    (es : List (String × String)) (x : String) :
    getEntry (L.foldl (fun acc e => setEntry acc e (f e)) es) x
      = if x ∈ L then some (f x) else getEntry es x := by
  induction L generalizing es with
  | nil => simp
  | cons e L ih =>
    rw [List.foldl_cons, ih]
    by_cases hmem : x ∈ L
    · rw [if_pos hmem, if_pos (List.mem_cons_of_mem _ hmem)]
    · rw [if_neg hmem, getEntry_setEntry]
      by_cases hx : x = e
      · rw [if_pos hx, if_pos (by rw [hx]; exact List.mem_cons_self _ _), hx]
      · rw [if_neg hx, if_neg (by simp [hx, hmem])]

lemma getEntry_foldl_set_remove (L : List String) (f : String → String)
    (es : List (String × String)) (x : String) :
    getEntry (L.foldl (fun acc e => setEntry (removeEntry acc e) e (f e)) es) x
      = if x ∈ L then some (f x) else getEntry es x := by
  induction L generalizing es with
  | nil => simp
  | cons e L ih =>
    rw [List.foldl_cons, ih]
    by_cases hmem : x ∈ L
    · rw [if_pos hmem, if_pos (List.mem_cons_of_mem _ hmem)]
    · rw [if_neg hmem, getEntry_set_remove]
      by_cases hx : x = e
      · rw [if_pos hx, if_pos (by rw [hx]; exact List.mem_cons_self _ _), hx]
      · rw [if_neg hx, if_neg (by simp [hx, hmem])]

/-- Final lookup table of a freshly populated run directory: the last
layer that mentions a name wins (`logs` over `conf/` over `data/` over
`dist/<v>/`), exactly as the layer loops of
`appdeploy_target_populate_run` execute. -/
lemma populate_getEntry (fs : AppFs) (v : String) (x : String) :
    getEntry (appdeploy_target_populate_run fs v emptyRunDir).entries x
      = if x = "logs" then some "../logs"
        else if x ∈ visibleEntries fs.confEntries then some ("../conf/" ++ x)
        else if x ∈ visibleEntries fs.dataEntries then some ("../data/" ++ x)
        else if x ∈ visibleEntries ((distLookup fs v).getD []) then
          some ("../dist/" ++ v ++ "/" ++ x)
        else none := by
  unfold appdeploy_target_populate_run
  dsimp only []
  rw [getEntry_setEntry, getEntry_foldl_set_remove, getEntry_foldl_set_remove,
    getEntry_foldl_set]
  rfl

/-- Shape of the run directory installed by a fully successful swap
activation. -/
lemma activate_complete_ok_shape (fs : AppFs) (v : String)
    (noRestart restartOk : Bool) (fs2 : AppFs)
    (hact : ¬ activeVersion fs = some v)
    (h : appdeploy_target_activate fs v noRestart restartOk .complete
      = .ok fs2) :
    ∃ rd, fs2.run = some rd ∧ rd.version = some v ∧
      rd.entries = (stagedRunDir fs v).entries := by
  unfold appdeploy_target_activate at h
  by_cases hd : (distLookup fs v).isNone
  · rw [if_pos hd] at h
    exact absurd h (by simp)
  · rw [if_neg hd, if_neg hact] at h
    dsimp only [] at h
    cases hr : fs.run with
    | some rd0 =>
      rw [hr] at h
      dsimp only [] at h
      by_cases hold : fs.runOld.isSome
      · rw [if_pos hold] at h
        exact absurd h (by simp)
      · rw [if_neg hold, if_neg (by decide)] at h
        obtain ⟨⟨rd, hrun, hver, hent⟩, _, _⟩ :=
          activateFinishPhase_ok _ _ _ _ _ _ _ h
        exact ⟨rd, hrun, hver.trans rfl, hent⟩
    | none =>
      rw [hr] at h
      dsimp only [] at h
      obtain ⟨⟨rd, hrun, hver, hent⟩, _, _⟩ :=
        activateFinishPhase_ok _ _ _ _ _ _ _ h
      exact ⟨rd, hrun, hver.trans rfl, hent⟩

/-- Claim C2 (amended): after a successful activation that performed
the swap, `run/.version` contains `V`, and every entry `X` that `ls -1`
lists in `dist/<V>/` has a symlink `run/X` whose target is determined
by the last-wins layering: `logs` points at `../logs`, names colliding
with a `conf/` entry point into `conf/`, names colliding with a `data/`
entry point into `data/`, and only the remaining names resolve into
`dist/<V>/`. -/
theorem c2_activation_postcondition (fs : AppFs) (v : String)
    (noRestart restartOk : Bool) (fs2 : AppFs)
    (hne : ¬ activeVersion fs = some v)
    (h : appdeploy_target_activate fs v noRestart restartOk .complete
      = .ok fs2) :
    ∃ rd, fs2.run = some rd ∧ rd.version = some v ∧
      ∀ x ∈ visibleEntries ((distLookup fs v).getD []),
        getEntry rd.entries x
          = some (if x = "logs" then "../logs"
              else if x ∈ visibleEntries fs.confEntries then "../conf/" ++ x
              else if x ∈ visibleEntries fs.dataEntries then "../data/" ++ x
              else "../dist/" ++ v ++ "/" ++ x) := by
  obtain ⟨rd, hrun, hver, hent⟩ :=
    activate_complete_ok_shape fs v noRestart restartOk fs2 hne h
  refine ⟨rd, hrun, hver, fun x hx => ?_⟩
  rw [hent]
  rw [show (stagedRunDir fs v).entries
      = (appdeploy_target_populate_run fs v emptyRunDir).entries from rfl]
  rw [populate_getEntry]
  by_cases h1 : x = "logs"
  · simp [h1]
  · rw [if_neg h1, if_neg h1]
    by_cases h2 : x ∈ visibleEntries fs.confEntries
    · rw [if_pos h2, if_pos h2]
    · rw [if_neg h2, if_neg h2]
      by_cases h3 : x ∈ visibleEntries fs.dataEntries
      · rw [if_pos h3, if_pos h3]
      · rw [if_neg h3, if_neg h3, if_pos hx]

/-- Claim C2 counterexample: after a successful `activate("1.0")`, the
entry `app.conf` IS listed in `dist/1.0/`, yet `run/app.conf` resolves
into `data/`, not into `dist/1.0/` — the `data/` layer replaced the
colliding symlink (`appdeploy.py:1326`-1333), contradicting the claim
for entries whose name also appears in `data/` or `conf/`. -/
theorem c2_collision_counterexample :
    appdeploy_target_activate c2CollisionFs "1.0" true true .complete
      = .ok { c2CollisionFs with run := some c2CollisionRun } ∧
    "app.conf" ∈ visibleEntries ((distLookup c2CollisionFs "1.0").getD []) ∧
    getEntry c2CollisionRun.entries "app.conf" = some "../data/app.conf" ∧
    resolvesIntoDist "../data/app.conf" "1.0" = false := by
  exact ⟨by decide, by decide, by decide, by decide⟩

/-- Witness for C2 (amended) at the collision-free fresh target of
scenario 1 of the spec. -/
theorem c2_activation_postcondition_witness :
    ∃ rd, c2WitnessResult.run = some rd ∧ rd.version = some "1.0" ∧
      ∀ x ∈ visibleEntries ((distLookup c2WitnessFs "1.0").getD []),
        getEntry rd.entries x
          = some (if x = "logs" then "../logs"
              else if x ∈ visibleEntries c2WitnessFs.confEntries then
                "../conf/" ++ x
              else if x ∈ visibleEntries c2WitnessFs.dataEntries then
                "../data/" ++ x
              else "../dist/" ++ "1.0" ++ "/" ++ x) :=
  c2_activation_postcondition c2WitnessFs "1.0" true true c2WitnessResult
    (by decide) (by decide)

lemma length_filter_le_of_imp {α : Type} (l : List α) (p q r : α → Prop)
    [DecidablePred p] [DecidablePred q] [DecidablePred r]
    (h : ∀ a, p a → q a ∨ r a) :
    (l.filter (fun a => decide (p a))).length
      ≤ (l.filter (fun a => decide (q a))).length
        + (l.filter (fun a => decide (r a))).length := by
  induction l with
  | nil => simp
  | cons a rest ih =>
    by_cases hp : p a
    · rcases h a hp with hq | hr
      · by_cases hrq : r a <;>
          simp [List.filter_cons, hp, hq, hrq] <;> omega
      · by_cases hqq : q a <;>
          simp [List.filter_cons, hp, hr, hqq] <;> omega
    · by_cases hqq : q a <;> by_cases hrr : r a <;>
        simp [List.filter_cons, hp, hqq, hrr] <;> omega

lemma length_filter_key_le_one (l : List (String × List String)) (ver : String)
    (h : (l.map Prod.fst).Nodup) :
    (l.filter (fun q => decide (q.1 = ver))).length ≤ 1 := by
  induction l with
  | nil => simp
  | cons e rest ih =>
    rw [List.map_cons, List.nodup_cons] at h
    by_cases he : e.1 = ver
    · have hnone : rest.filter (fun q => decide (q.1 = ver)) = [] := by
        apply List.filter_eq_nil_iff.mpr
        intro q hq
        simp only [decide_eq_true_eq]
        intro hcon
        refine h.1 ?_
        rw [he, ← hcon]
        exact List.mem_map_of_mem _ hq
      simp [List.filter_cons, he, hnone]
    · simpa [List.filter_cons, he] using ih h.2

lemma cleanLoop_preserves (name : String) (keep : Nat) (active : Option String) :
    ∀ (vs : List String) (kept : Nat) (fs : AppFs),
    (cleanLoop name keep active vs kept fs).1.run = fs.run ∧
    (cleanLoop name keep active vs kept fs).1.dataEntries = fs.dataEntries ∧
    (cleanLoop name keep active vs kept fs).1.confEntries = fs.confEntries ∧
    (cleanLoop name keep active vs kept fs).1.runNew = fs.runNew ∧
    (cleanLoop name keep active vs kept fs).1.runOld = fs.runOld := by
  intro vs
  induction vs with
  | nil => intro kept fs; exact ⟨rfl, rfl, rfl, rfl, rfl⟩
  | cons ver rest ih =>
    intro kept fs
    unfold cleanLoop
    split_ifs with h1 h2
    · exact ih kept fs
    · exact ih (kept + 1) fs
    · exact ih kept (cleanRemoveVersion fs name ver)

lemma cleanLoop_removed_not_active (name : String) (keep : Nat)
    (active : Option String) :
    ∀ (vs : List String) (kept : Nat) (fs : AppFs),
    ∀ v ∈ (cleanLoop name keep active vs kept fs).2, ¬ some v = active := by
  intro vs
  induction vs with
  | nil => intro kept fs v hv; simp [cleanLoop] at hv
  | cons ver rest ih =>
    intro kept fs v hv
    unfold cleanLoop at hv
    split_ifs at hv with h1 h2
    · exact ih kept fs v hv
    · exact ih (kept + 1) fs v hv
    · rcases List.mem_cons.mp hv with hv1 | hv2
      · rw [hv1]; exact h1
      · exact ih kept (cleanRemoveVersion fs name ver) v hv2

lemma cleanLoop_dist (name : String) (keep : Nat) (active : Option String) :
    ∀ (vs : List String) (kept : Nat) (fs : AppFs),
    (cleanLoop name keep active vs kept fs).1.dist
      = fs.dist.filter
          (fun q => ¬ q.1 ∈ (cleanLoop name keep active vs kept fs).2) := by
  intro vs
  induction vs with
  | nil =>
    intro kept fs
    simp [cleanLoop]
  | cons ver rest ih =>
    intro kept fs
    unfold cleanLoop
    split_ifs with h1 h2
    · exact ih kept fs
    · exact ih (kept + 1) fs
    · dsimp only []
      rw [ih kept (cleanRemoveVersion fs name ver)]
      show (fs.dist.filter (fun q => decide (¬ q.1 = ver))).filter _ = _
      rw [List.filter_filter]
      apply List.filter_congr
      intro q _
      by_cases hv : q.1 = ver
      · simp [hv]
      · by_cases hm : q.1 ∈ (cleanLoop name keep active rest kept
          (cleanRemoveVersion fs name ver)).2 <;> simp [hv, hm]

lemma cleanLoop_dist_mem (name : String) (keep : Nat) (active : Option String)
    (vs : List String) (kept : Nat) (fs : AppFs) :
    ∀ q ∈ (cleanLoop name keep active vs kept fs).1.dist, q ∈ fs.dist := by
  intro q hq
  rw [cleanLoop_dist] at hq
  exact (List.mem_filter.mp hq).1

lemma cleanLoop_dist_nodup (name : String) (keep : Nat) (active : Option String)
    (vs : List String) (kept : Nat) (fs : AppFs)
    (h : (fs.dist.map Prod.fst).Nodup) :
    (((cleanLoop name keep active vs kept fs).1.dist).map Prod.fst).Nodup := by
  rw [cleanLoop_dist]
  exact (List.Sublist.map Prod.fst (List.filter_sublist _)).nodup h

lemma cleanLoop_packages_mem (name : String) (keep : Nat)
    (active : Option String) :
    ∀ (vs : List String) (kept : Nat) (fs : AppFs),
    ∀ a ∈ (cleanLoop name keep active vs kept fs).1.packages,
      a ∈ fs.packages := by
  intro vs
  induction vs with
  | nil => intro kept fs a ha; exact ha
  | cons ver rest ih =>
    intro kept fs a ha
    unfold cleanLoop at ha
    split_ifs at ha with h1 h2
    · exact ih kept fs a ha
    · exact ih (kept + 1) fs a ha
    · have h3 := ih kept (cleanRemoveVersion fs name ver) a ha
      exact (List.mem_filter.mp h3).1

lemma cleanLoop_packages_removed (name : String) (keep : Nat)
    (active : Option String) :
    ∀ (vs : List String) (kept : Nat) (fs : AppFs),
    ∀ v ∈ (cleanLoop name keep active vs kept fs).2,
    ∀ a ∈ (cleanLoop name keep active vs kept fs).1.packages,
      ¬ a ∈ archiveNames name v := by
  intro vs
  induction vs with
  | nil => intro kept fs v hv; simp [cleanLoop] at hv
  | cons ver rest ih =>
    intro kept fs v hv a ha
    unfold cleanLoop at hv ha
    split_ifs at hv ha with h1 h2
    · exact ih kept fs v hv a ha
    · exact ih (kept + 1) fs v hv a ha
    · rcases List.mem_cons.mp hv with hv1 | hv2
      · rw [hv1]
        have h3 := cleanLoop_packages_mem name keep active rest kept
          (cleanRemoveVersion fs name ver) a ha
        have h4 := (List.mem_filter.mp h3).2
        simpa using h4
      · exact ih kept (cleanRemoveVersion fs name ver) v hv2 a ha

lemma cleanLoop_packages_kept (name : String) (keep : Nat)
    (active : Option String) :
    ∀ (vs : List String) (kept : Nat) (fs : AppFs),
    ∀ a ∈ fs.packages,
    (∀ v ∈ (cleanLoop name keep active vs kept fs).2,
      ¬ a ∈ archiveNames name v) →
    a ∈ (cleanLoop name keep active vs kept fs).1.packages := by
  intro vs
  induction vs with
  | nil => intro kept fs a ha _; exact ha
  | cons ver rest ih =>
    intro kept fs a ha hnot
    unfold cleanLoop at hnot ⊢
    split_ifs at hnot ⊢ with h1 h2
    · exact ih kept fs a ha hnot
    · exact ih (kept + 1) fs a ha hnot
    · refine ih kept (cleanRemoveVersion fs name ver) a ?_ ?_
      · refine List.mem_filter.mpr ⟨ha, ?_⟩
        simpa using hnot ver (List.mem_cons_self _ _)
      · intro v hv
        exact hnot v (List.mem_cons_of_mem _ hv)

lemma cleanLoop_count (name : String) (keep : Nat) (active : Option String) :
    ∀ (vs : List String) (kept : Nat) (fs : AppFs),
    (fs.dist.map Prod.fst).Nodup → kept ≤ keep →
    ((cleanLoop name keep active vs kept fs).1.dist.filter
        (fun q => decide (¬ some q.1 = active ∧ q.1 ∈ vs))).length + kept
      ≤ keep := by
  intro vs
  induction vs with
  | nil =>
    intro kept fs _ hk
    simpa [cleanLoop] using hk
  | cons ver rest ih =>
    intro kept fs hnodup hk
    unfold cleanLoop
    split_ifs with h1 h2
    · have heq : ((cleanLoop name keep active rest kept fs).1.dist.filter
          (fun q => decide (¬ some q.1 = active ∧ q.1 ∈ ver :: rest)))
        = ((cleanLoop name keep active rest kept fs).1.dist.filter
          (fun q => decide (¬ some q.1 = active ∧ q.1 ∈ rest))) := by
        apply List.filter_congr
        intro q _
        by_cases hna : some q.1 = active
        · simp [hna]
        · by_cases hv : q.1 = ver
          · exact absurd (hv ▸ h1) hna
          · by_cases hm : q.1 ∈ rest <;> simp [hna, hm, hv]
      rw [heq]
      exact ih kept fs hnodup hk
    · have ihr := ih (kept + 1) fs hnodup (by omega)
      have hsplit : (((cleanLoop name keep active rest (kept + 1) fs).1.dist).filter
            (fun q => decide (¬ some q.1 = active ∧ q.1 ∈ ver :: rest))).length
          ≤ (((cleanLoop name keep active rest (kept + 1) fs).1.dist).filter
            (fun q => decide (¬ some q.1 = active ∧ q.1 ∈ rest))).length
            + (((cleanLoop name keep active rest (kept + 1) fs).1.dist).filter
            (fun q => decide (q.1 = ver))).length :=
        length_filter_le_of_imp
          ((cleanLoop name keep active rest (kept + 1) fs).1.dist)
          (fun q => ¬ some q.1 = active ∧ q.1 ∈ ver :: rest)
          (fun q => ¬ some q.1 = active ∧ q.1 ∈ rest)
          (fun q => q.1 = ver)
          (fun q hq => by
            rcases hq with ⟨hna, hm⟩
            rcases List.mem_cons.mp hm with h | h
            · exact Or.inr h
            · exact Or.inl ⟨hna, h⟩)
      have hone := length_filter_key_le_one
        ((cleanLoop name keep active rest (kept + 1) fs).1.dist) ver
        (cleanLoop_dist_nodup name keep active rest (kept + 1) fs hnodup)
      omega
    · dsimp only []
      have hnodup2 : (((cleanRemoveVersion fs name ver).dist).map Prod.fst).Nodup :=
        (List.Sublist.map Prod.fst (List.filter_sublist _)).nodup hnodup
      have ihr := ih kept (cleanRemoveVersion fs name ver) hnodup2 hk
      have hsplit : (((cleanLoop name keep active rest kept
              (cleanRemoveVersion fs name ver)).1.dist).filter
            (fun q => decide (¬ some q.1 = active ∧ q.1 ∈ ver :: rest))).length
          ≤ (((cleanLoop name keep active rest kept
              (cleanRemoveVersion fs name ver)).1.dist).filter
            (fun q => decide (¬ some q.1 = active ∧ q.1 ∈ rest))).length
            + (((cleanLoop name keep active rest kept
              (cleanRemoveVersion fs name ver)).1.dist).filter
            (fun q => decide (q.1 = ver))).length :=
        length_filter_le_of_imp
          ((cleanLoop name keep active rest kept
            (cleanRemoveVersion fs name ver)).1.dist)
          (fun q => ¬ some q.1 = active ∧ q.1 ∈ ver :: rest)
          (fun q => ¬ some q.1 = active ∧ q.1 ∈ rest)
          (fun q => q.1 = ver)
          (fun q hq => by
            rcases hq with ⟨hna, hm⟩
            rcases List.mem_cons.mp hm with h | h
            · exact Or.inr h
            · exact Or.inl ⟨hna, h⟩)
      have hzero : (((cleanLoop name keep active rest kept
          (cleanRemoveVersion fs name ver)).1.dist).filter
            (fun q => decide (q.1 = ver))).length = 0 := by
        rw [List.length_eq_zero]
        apply List.filter_eq_nil_iff.mpr
        intro q hq
        have hqmem := cleanLoop_dist_mem name keep active rest kept
          (cleanRemoveVersion fs name ver) q hq
        have h5 := (List.mem_filter.mp hqmem).2
        simpa using h5
      omega

/-- Claim C5 (amended): after `clean(app, K)` with `K > 0` (and
distinct version names, as on a real filesystem): `run/` is untouched;
`dist/` keeps exactly the versions not in the returned removed list;
removed versions are never the active one, so the active version's
`dist/` entry survives; at most `K` non-active versions remain; for
every removed version the archives `NAME-<V><EXT>` with
`EXT ∈ {.tar.gz, .tar.bz2, .tar.xz}` are gone from `packages/`; no
archive is added; and every archive not matching a removed version
under those three extensions survives (in particular `.tgz` archives
are never removed). -/
theorem c5_clean_postconditions (fs : AppFs) (name : String) (keep : Nat)
    (hkeep : 0 < keep)
    (hnodup : (fs.dist.map Prod.fst).Nodup) :
    ((appdeploy_target_clean fs name keep).1.run = fs.run) ∧
    ((appdeploy_target_clean fs name keep).1.dist
      = fs.dist.filter
          (fun q => ¬ q.1 ∈ (appdeploy_target_clean fs name keep).2)) ∧
    (∀ v ∈ (appdeploy_target_clean fs name keep).2,
      ¬ some v = activeVersion fs) ∧
    (∀ p ∈ fs.dist, some p.1 = activeVersion fs →
      p ∈ (appdeploy_target_clean fs name keep).1.dist) ∧
    (((appdeploy_target_clean fs name keep).1.dist.filter
        (fun q => decide (¬ some q.1 = activeVersion fs))).length ≤ keep) ∧
    (∀ v ∈ (appdeploy_target_clean fs name keep).2,
      ∀ a ∈ (appdeploy_target_clean fs name keep).1.packages,
        ¬ a ∈ archiveNames name v) ∧
    (∀ a ∈ (appdeploy_target_clean fs name keep).1.packages,
      a ∈ fs.packages) ∧
    (∀ a ∈ fs.packages,
      (∀ v ∈ (appdeploy_target_clean fs name keep).2,
        ¬ a ∈ archiveNames name v) →
      a ∈ (appdeploy_target_clean fs name keep).1.packages) := by
  have hne : ¬ keep = 0 := by omega
  unfold appdeploy_target_clean
  rw [if_neg hne]
  refine ⟨(cleanLoop_preserves _ _ _ _ _ _).1,
    cleanLoop_dist _ _ _ _ _ _,
    cleanLoop_removed_not_active _ _ _ _ _ _,
    ?_, ?_,
    cleanLoop_packages_removed _ _ _ _ _ _,
    cleanLoop_packages_mem _ _ _ _ _ _,
    cleanLoop_packages_kept _ _ _ _ _ _⟩
  · intro p hp hpact
    rw [cleanLoop_dist]
    refine List.mem_filter.mpr ⟨hp, ?_⟩
    simp only [decide_eq_true_eq]
    intro hmem
    exact cleanLoop_removed_not_active name keep (activeVersion fs) _ 0 fs
      p.1 hmem hpact
  · have hcount := cleanLoop_count name keep (activeVersion fs)
      (fs.dist.map (fun q => q.1)) 0 fs hnodup (by omega)
    have heq : ((cleanLoop name keep (activeVersion fs)
          (fs.dist.map (fun q => q.1)) 0 fs).1.dist.filter
        (fun q => decide (¬ some q.1 = activeVersion fs)))
      = ((cleanLoop name keep (activeVersion fs)
          (fs.dist.map (fun q => q.1)) 0 fs).1.dist.filter
        (fun q => decide (¬ some q.1 = activeVersion fs
          ∧ q.1 ∈ fs.dist.map (fun q => q.1)))) := by
      apply List.filter_congr
      intro q hq
      have hmem : q.1 ∈ fs.dist.map (fun q => q.1) := by
        have h0 := cleanLoop_dist_mem name keep (activeVersion fs)
          (fs.dist.map (fun q => q.1)) 0 fs q hq
        exact List.mem_map_of_mem _ h0
      by_cases hna : some q.1 = activeVersion fs <;> simp [hna, hmem]
    rw [heq]
    omega

/-- Claim C5 counterexample: `clean("app", 1)` on `c5TgzFs` removes
`dist/1.0/` (returning `["1.0"]`) but leaves the archive
`app-1.0.tgz` in `packages/` — `.tgz` is a supported extension of the
archive grammar (and of install), yet `appdeploy_target_clean` only
tries `.tar.gz`, `.tar.bz2` and `.tar.xz` (`appdeploy.py:1490`), so
after cleaning an archive `NAME-<V><EXT>` exists whose `dist/<V>/`
does not. -/
theorem c5_clean_counterexample :
    (appdeploy_target_clean c5TgzFs "app" 1).2 = ["1.0"] ∧
    distLookup (appdeploy_target_clean c5TgzFs "app" 1).1 "1.0" = none ∧
    "app-1.0.tgz" ∈ (appdeploy_target_clean c5TgzFs "app" 1).1.packages ∧
    "app-1.0.tgz" = "app" ++ "-" ++ "1.0" ++ ".tgz" := by
  exact ⟨by decide, by decide, by decide, by decide⟩

/-- Witness for C5 (amended), applied to the same concrete state: the
non-active version count after `clean("app", 1)` is at most 1 and the
active version's tree survives. -/
theorem c5_clean_postconditions_witness :
    ((appdeploy_target_clean c5TgzFs "app" 1).1.dist.filter
        (fun q => decide (¬ some q.1 = activeVersion c5TgzFs))).length ≤ 1 ∧
    ("2.0", ["run.sh"]) ∈ (appdeploy_target_clean c5TgzFs "app" 1).1.dist := by
  have h := c5_clean_postconditions c5TgzFs "app" 1 (by decide) (by decide)
  exact ⟨h.2.2.2.2.1, h.2.2.2.1 ("2.0", ["run.sh"]) (by decide) (by decide)⟩

/-! ### Claim C9 -/

/-- Claim C9 (confirmed): loading an archive package never fails
because of its `conf.toml`.  (1) `appdeploy_package_load_config`
always succeeds on an archive source, collapsing any extraction/parse
exception — and a missing member — to the empty configuration.
(2) A load whose in-archive configuration read raised behaves exactly
like a load of an archive without `conf.toml`: resolution proceeds from
the remaining sources.  (3) In particular, without CLI overrides the
name and version come from the archive-filename grammar whenever the
filename parses. -/
theorem c9_archive_config_resilience
    (r : Except Unit (Option PkgConfig)) (filename : String)
    (cliName cliVersion : Option String) (n v : String)
    (hparse : appdeploy_package_parse_archive filename = .ok (n, v)) :
    (∃ c, appdeploy_package_load_config (.archive r filename) = .ok c ∧
      (r = .error () → c = emptyConfig)) ∧
    appdeploy_package_load
        { pathExists := true, source := .archive (.error ()) filename,
          cliName := cliName, cliVersion := cliVersion }
      = appdeploy_package_load
        { pathExists := true, source := .archive (.ok none) filename,
          cliName := cliName, cliVersion := cliVersion } ∧
    appdeploy_package_load
        { pathExists := true, source := .archive (.error ()) filename,
          cliName := none, cliVersion := none }
      = .ok { name := n, version := v, isArchive := true,
              config := emptyConfig } := by
  refine ⟨?_, ?_, ?_⟩
  · cases r with
    | error e => exact ⟨emptyConfig, by cases e; rfl, fun _ => rfl⟩
    | ok c =>
      cases c with
      | none => exact ⟨emptyConfig, rfl, fun hcon => by simp at hcon⟩
      | some c0 => exact ⟨c0, rfl, fun hcon => by simp at hcon⟩
  · rfl
  · unfold appdeploy_package_load
    simp only [appdeploy_package_load_config, appdeploy_package_resolve_name,
      appdeploy_package_resolve_version, hparse]
    rfl

/-- Witness for C9 at the archive `svc-1.0.tar.gz` whose embedded
`conf.toml` read raises. -/
theorem c9_archive_config_resilience_witness :
    appdeploy_package_load
        { pathExists := true, source := .archive (.error ()) "svc-1.0.tar.gz",
          cliName := none, cliVersion := none }
      = .ok { name := "svc", version := "1.0", isArchive := true,
              config := emptyConfig } :=
  (c9_archive_config_resilience (.error ()) "svc-1.0.tar.gz" none none
    "svc" "1.0" (by decide)).2.2

lemma distLookup_congr (fsA fsB : AppFs) (v : String) (h : fsA.dist = fsB.dist) :
    distLookup fsA v = distLookup fsB v := by
  unfold distLookup
  rw [h]

lemma populate_congr (fsA fsB : AppFs) (v : String)
    (h1 : distLookup fsA v = distLookup fsB v)
    (h2 : fsA.dataEntries = fsB.dataEntries)
    (h3 : fsA.confEntries = fsB.confEntries) :
    appdeploy_target_populate_run fsA v emptyRunDir
      = appdeploy_target_populate_run fsB v emptyRunDir := by
  unfold appdeploy_target_populate_run
  rw [h1, h2, h3]

lemma find_key_filter (l : List (String × List String))
    (p : String × List String → Bool) (v : String)
    (hv : ∀ q : String × List String, q.1 = v → p q = true) :
    (l.filter p).find? (fun q => q.1 = v) = l.find? (fun q => q.1 = v) := by
  induction l with
  | nil => rfl
  | cons e rest ih =>
    by_cases he : e.1 = v
    · rw [List.filter_cons_of_pos (hv e he)]
      rw [List.find?_cons_of_pos _ (by simp [he]),
        List.find?_cons_of_pos _ (by simp [he])]
    · by_cases hp : p e = true
      · rw [List.filter_cons_of_pos hp]
        rw [List.find?_cons_of_neg _ (by simp [he]),
          List.find?_cons_of_neg _ (by simp [he]), ih]
      · rw [List.filter_cons_of_neg (by simp [hp])]
        rw [List.find?_cons_of_neg _ (by simp [he]), ih]

lemma cleanLoop_removed_subset (name : String) (keep : Nat)
    (active : Option String) :
    ∀ (vs : List String) (kept : Nat) (fs : AppFs),
    ∀ v ∈ (cleanLoop name keep active vs kept fs).2, v ∈ vs := by
  intro vs
  induction vs with
  | nil => intro kept fs v hv; simp [cleanLoop] at hv
  | cons ver rest ih =>
    intro kept fs v hv
    unfold cleanLoop at hv
    split_ifs at hv with h1 h2
    · exact List.mem_cons_of_mem _ (ih kept fs v hv)
    · exact List.mem_cons_of_mem _ (ih (kept + 1) fs v hv)
    · rcases List.mem_cons.mp hv with hv1 | hv2
      · rw [hv1]; exact List.mem_cons_self _ _
      · exact List.mem_cons_of_mem _
          (ih kept (cleanRemoveVersion fs name ver) v hv2)

lemma cleanLoop_head_not_removed (name : String) (keep : Nat)
    (active : Option String) (ver : String) (rest : List String) (fs : AppFs)
    (hkeep : 0 < keep) (hrest : ¬ ver ∈ rest) :
    ¬ ver ∈ (cleanLoop name keep active (ver :: rest) 0 fs).2 := by
  intro hm
  unfold cleanLoop at hm
  split_ifs at hm with h1
  · exact hrest (cleanLoop_removed_subset name keep active rest 0 fs ver hm)
  · exact hrest (cleanLoop_removed_subset name keep active rest 1 fs ver hm)

lemma clean_distLookup_not_removed (fs : AppFs) (name : String) (keep : Nat)
    (v : String) (hnr : ¬ v ∈ (appdeploy_target_clean fs name keep).2) :
    distLookup (appdeploy_target_clean fs name keep).1 v = distLookup fs v := by
  unfold appdeploy_target_clean at hnr ⊢
  by_cases hk : keep = 0
  · rw [if_pos hk]
  · rw [if_neg hk] at hnr ⊢
    unfold distLookup
    rw [cleanLoop_dist]
    rw [find_key_filter]
    intro q hq
    simp only [decide_eq_true_eq]
    rw [hq]
    exact hnr

lemma clean_distLookup_active (fs : AppFs) (name : String) (keep : Nat)
    (p : String) (hact : activeVersion fs = some p) :
    distLookup (appdeploy_target_clean fs name keep).1 p = distLookup fs p := by
  apply clean_distLookup_not_removed
  intro hm
  unfold appdeploy_target_clean at hm
  by_cases hk : keep = 0
  · rw [if_pos hk] at hm
    exact (List.not_mem_nil p) hm
  · rw [if_neg hk] at hm
    exact cleanLoop_removed_not_active name keep (activeVersion fs) _ 0 fs p hm
      (by rw [hact])

lemma installClean_fields (fs : AppFs) (pkg : UpgradePkg) (keep : Nat) :
    (installClean fs pkg keep).run = fs.run ∧
    (installClean fs pkg keep).dataEntries = fs.dataEntries ∧
    (installClean fs pkg keep).confEntries = fs.confEntries ∧
    (installClean fs pkg keep).runNew = fs.runNew ∧
    (installClean fs pkg keep).runOld = fs.runOld := by
  unfold installClean appdeploy_target_clean
  by_cases hk : keep = 0
  · rw [if_pos hk]
    exact ⟨rfl, rfl, rfl, rfl, rfl⟩
  · rw [if_neg hk]
    have h := cleanLoop_preserves pkg.name keep
      (activeVersion (installedRaw fs pkg))
      ((installedRaw fs pkg).dist.map (fun q => q.1)) 0 (installedRaw fs pkg)
    exact ⟨h.1, h.2.1, h.2.2.1, h.2.2.2.1, h.2.2.2.2⟩

lemma installedRaw_distLookup_new (fs : AppFs) (pkg : UpgradePkg) :
    distLookup (installedRaw fs pkg) pkg.version
      = some (mergeEntries ((distLookup fs pkg.version).getD []) pkg.entries) := by
  unfold distLookup installedRaw
  dsimp only []
  rw [List.find?_cons_of_pos _ (by simp)]
  rfl

lemma installClean_distLookup_new (fs : AppFs) (pkg : UpgradePkg) (keep : Nat) :
    distLookup (installClean fs pkg keep) pkg.version
      = some (mergeEntries ((distLookup fs pkg.version).getD []) pkg.entries) := by
  unfold installClean
  rw [clean_distLookup_not_removed, installedRaw_distLookup_new]
  intro hm
  unfold appdeploy_target_clean at hm
  by_cases hk : keep = 0
  · rw [if_pos hk] at hm
    exact (List.not_mem_nil _) hm
  · rw [if_neg hk] at hm
    have hvs : (installedRaw fs pkg).dist.map (fun q => q.1)
        = pkg.version :: (fs.dist.filter
            (fun q => ¬ q.1 = pkg.version)).map (fun q => q.1) := rfl
    rw [hvs] at hm
    refine cleanLoop_head_not_removed _ _ _ _ _ _ (Nat.pos_of_ne_zero hk) ?_ hm
    intro hmem
    rcases List.mem_map.mp hmem with ⟨q, hq, hq1⟩
    have := (List.mem_filter.mp hq).2
    rw [hq1] at this
    simp at this

lemma installClean_distLookup_active (fs : AppFs) (pkg : UpgradePkg)
    (keep : Nat) (p : String) (hact : activeVersion fs = some p)
    (hp : ¬ p = pkg.version) :
    distLookup (installClean fs pkg keep) p = distLookup fs p := by
  unfold installClean
  have h1 : activeVersion (installedRaw fs pkg) = some p := hact
  rw [clean_distLookup_active _ _ _ _ h1]
  unfold distLookup installedRaw
  dsimp only []
  rw [List.find?_cons_of_neg _ (by simp; intro hc; exact hp hc.symm)]
  rw [find_key_filter]
  intro q hq
  simp only [decide_eq_true_eq]
  rw [hq]
  intro hc
  exact hp hc

lemma stopStepState_fields (fs1 : AppFs) (c d : Bool) :
    (stopStepState fs1 c d).dist = fs1.dist ∧
    (stopStepState fs1 c d).dataEntries = fs1.dataEntries ∧
    (stopStepState fs1 c d).confEntries = fs1.confEntries ∧
    (stopStepState fs1 c d).runOld = fs1.runOld ∧
    activeVersion (stopStepState fs1 c d) = activeVersion fs1 := by
  unfold stopStepState
  split_ifs with h1 h2
  · refine ⟨rfl, rfl, rfl, rfl, ?_⟩
    unfold activeVersion clearRunPid
    cases fs1.run <;> rfl
  · exact ⟨rfl, rfl, rfl, rfl, rfl⟩
  · exact ⟨rfl, rfl, rfl, rfl, rfl⟩

lemma activate_complete_ok_eq (fs : AppFs) (v : String)
    (hdist : (distLookup fs v).isNone = false)
    (hact : ¬ activeVersion fs = some v)
    (hold : fs.runOld = none) :
    appdeploy_target_activate fs v true true .complete
      = .ok { fs with run := some (stagedRunDir fs v), runNew := none,
                      runOld := none } := by
  unfold appdeploy_target_activate
  rw [if_neg (by rw [hdist]; exact Bool.false_ne_true)]
  rw [if_neg hact]
  dsimp only []
  cases hr : fs.run with
  | some rd0 =>
    dsimp only []
    rw [hold]
    rw [if_neg (by decide)]
    rw [if_neg (by decide)]
    unfold activateFinishPhase
    rw [if_neg (by decide), if_neg (by decide)]
    simp only [Bool.not_true, Bool.and_false]
    rw [if_neg (by decide)]
  | none =>
    dsimp only []
    unfold activateFinishPhase
    rw [if_neg (by decide), if_neg (by decide)]
    simp only [Bool.not_true, Bool.and_false]
    rw [if_neg (by decide)]

lemma upgradeRollback_cases (fsR : AppFs) (p : String)
    (wasRunning startPrevOk : Bool) (fs2 : AppFs) (out : UpOutcome)
    (rdR : RunDir) (vnew : String)
    (h : upgradeRollback fsR p wasRunning startPrevOk = (fs2, out))
    (hrun : fsR.run = some rdR) (hverR : rdR.version = some vnew)
    (hactR : ¬ activeVersion fsR = some p)
    (holdR : fsR.runOld = none) :
    (fs2.dataEntries = fsR.dataEntries ∧ fs2.confEntries = fsR.confEntries ∧
      fs2.dist = fsR.dist) ∧
    (∃ rd, fs2.run = some rd ∧
      ((rd.version = some vnew ∧ rd.entries = rdR.entries) ∨
       (rd.version = some p ∧
        rd.entries = (appdeploy_target_populate_run fsR p emptyRunDir).entries))) ∧
    ¬ out = .success ∧
    ((distLookup fsR p).isNone = false →
      activeVersion fs2 = some p ∧
      ((wasRunning = false ∨ startPrevOk = true) → out = .failed)) := by
  unfold upgradeRollback at h
  by_cases hd : (distLookup fsR p).isNone = true
  · have hact : appdeploy_target_activate fsR p true true .complete
        = .error fsR := by
      unfold appdeploy_target_activate
      rw [if_pos hd]
    rw [hact] at h
    dsimp only [] at h
    injection h with hfs hout
    subst hfs
    subst hout
    refine ⟨⟨rfl, rfl, rfl⟩, ⟨rdR, hrun, Or.inl ⟨hverR, rfl⟩⟩, by decide, ?_⟩
    intro hdist
    rw [hd] at hdist
    exact absurd hdist (by decide)
  · have hdf : (distLookup fsR p).isNone = false := by
      cases hx : (distLookup fsR p).isNone
      · rfl
      · exact absurd hx hd
    rw [activate_complete_ok_eq fsR p hdf hactR holdR] at h
    dsimp only [] at h
    cases hw : wasRunning with
    | false =>
      rw [hw] at h
      rw [if_neg (by decide)] at h
      injection h with hfs hout
      subst hfs
      subst hout
      exact ⟨⟨rfl, rfl, rfl⟩,
        ⟨stagedRunDir fsR p, rfl, Or.inr ⟨rfl, rfl⟩⟩, by decide,
        fun hdist => ⟨rfl, fun hcond => rfl⟩⟩
    | true =>
      rw [hw] at h
      rw [if_pos rfl] at h
      cases hs : startPrevOk with
      | true =>
        rw [hs] at h
        rw [if_pos rfl] at h
        injection h with hfs hout
        subst hfs
        subst hout
        exact ⟨⟨rfl, rfl, rfl⟩,
          ⟨{ stagedRunDir fsR p with hasPid := true }, rfl,
            Or.inr ⟨rfl, rfl⟩⟩, by decide,
          fun hdist => ⟨rfl, fun hcond => rfl⟩⟩
      | false =>
        rw [hs] at h
        rw [if_neg (by decide)] at h
        injection h with hfs hout
        subst hfs
        subst hout
        refine ⟨⟨rfl, rfl, rfl⟩,
          ⟨stagedRunDir fsR p, rfl, Or.inr ⟨rfl, rfl⟩⟩, by decide, ?_⟩
        intro hdist
        refine ⟨rfl, ?_⟩
        intro hcond
        rcases hcond with hc | hc <;> exact absurd hc (by decide)

lemma upgradePostActivate_cases (fs3 : AppFs) (prev : Option String)
    (wasRunning rollbackOnFail : Bool) (env : UpgradeEnv)
    (vnew : String) (rd3 : RunDir) (fs2 : AppFs) (out : UpOutcome)
    (h : upgradePostActivate fs3 prev wasRunning rollbackOnFail env
      = (fs2, out))
    (hrun3 : fs3.run = some rd3) (hver3 : rd3.version = some vnew)
    (hold3 : fs3.runOld = none)
    (hpne : ∀ p, prev = some p → ¬ p = vnew) :
    (fs2.dataEntries = fs3.dataEntries ∧ fs2.confEntries = fs3.confEntries ∧
      fs2.dist = fs3.dist) ∧
    (∃ rd, fs2.run = some rd ∧
      ((rd.version = some vnew ∧ rd.entries = rd3.entries) ∨
       (∃ p, prev = some p ∧ rd.version = some p ∧
        rd.entries = (appdeploy_target_populate_run fs3 p emptyRunDir).entries))) ∧
    (out = .success ↔ env.startNewOk = true ∧ env.healthOk = true) ∧
    (∀ p, prev = some p → (distLookup fs3 p).isNone = false →
      rollbackOnFail = true →
      (wasRunning = false ∨ env.startPrevOk = true) →
      (env.startNewOk = false ∨
        (env.healthOk = false ∧ env.stopForceOk = true)) →
      activeVersion fs2 = some p ∧ out = .failed) := by
  have hrunSet : (setRunPid fs3).run = some { rd3 with hasPid := true } := by
    unfold setRunPid
    rw [hrun3]
    rfl
  unfold upgradePostActivate at h
  by_cases hS : env.startNewOk = true
  · rw [if_pos hS] at h
    dsimp only [] at h
    by_cases hH : env.healthOk = true
    · rw [if_pos hH] at h
      injection h with hfs hout
      subst hfs
      subst hout
      refine ⟨⟨rfl, rfl, rfl⟩,
        ⟨{ rd3 with hasPid := true }, hrunSet, Or.inl ⟨hver3, rfl⟩⟩,
        by simp [hS, hH], ?_⟩
      intro p2 hp2 hdist hR hWS hsel
      rcases hsel with hc | hc
      · rw [hS] at hc
        exact absurd hc (by decide)
      · rw [hH] at hc
        exact absurd hc.1 (by decide)
    · rw [if_neg hH] at h
      cases rollbackOnFail with
      | false =>
        dsimp only [] at h
        injection h with hfs hout
        subst hfs
        subst hout
        refine ⟨⟨rfl, rfl, rfl⟩,
          ⟨{ rd3 with hasPid := true }, hrunSet, Or.inl ⟨hver3, rfl⟩⟩,
          by simp [hH], ?_⟩
        intro p2 hp2 hdist hR hWS hsel
        exact absurd hR (by decide)
      | true =>
        cases prev with
        | none =>
          dsimp only [] at h
          injection h with hfs hout
          subst hfs
          subst hout
          refine ⟨⟨rfl, rfl, rfl⟩,
            ⟨{ rd3 with hasPid := true }, hrunSet, Or.inl ⟨hver3, rfl⟩⟩,
            by simp [hH], ?_⟩
          intro p2 hp2 hdist hR hWS hsel
          exact absurd hp2 (by simp)
        | some p =>
          dsimp only [] at h
          by_cases hF : env.stopForceOk = true
          · rw [if_neg (by simp [hF])] at h
            have hrunF : (clearRunPid (setRunPid fs3)).run
                = some { rd3 with hasPid := false } := by
              unfold clearRunPid setRunPid
              rw [hrun3]
              rfl
            have hactF : activeVersion (clearRunPid (setRunPid fs3))
                = some vnew := by
              unfold activeVersion
              rw [hrunF]
              exact hver3
            have hactR : ¬ activeVersion (clearRunPid (setRunPid fs3))
                = some p := by
              rw [hactF]
              intro hc
              injection hc with hc2
              exact hpne p rfl hc2.symm
            obtain ⟨hfields, ⟨rd, hrd, hdisj⟩, hnsucc, hcond⟩ :=
              upgradeRollback_cases (clearRunPid (setRunPid fs3)) p
                wasRunning env.startPrevOk fs2 out
                { rd3 with hasPid := false } vnew h hrunF hver3 hactR hold3
            refine ⟨hfields, ⟨rd, hrd, ?_⟩, ?_, ?_⟩
            · rcases hdisj with ⟨hv, he⟩ | ⟨hv, he⟩
              · exact Or.inl ⟨hv, he⟩
              · exact Or.inr ⟨p, rfl, hv, he⟩
            · constructor
              · intro hx
                exact absurd hx hnsucc
              · intro hx
                exact absurd hx.2 hH
            · intro p2 hp2 hdist hR hWS hsel
              injection hp2 with hp2e
              subst hp2e
              obtain ⟨ha, hb⟩ := hcond hdist
              exact ⟨ha, hb hWS⟩
          · rw [if_pos (by simp [hF])] at h
            injection h with hfs hout
            subst hfs
            subst hout
            refine ⟨⟨rfl, rfl, rfl⟩,
              ⟨{ rd3 with hasPid := true }, hrunSet, Or.inl ⟨hver3, rfl⟩⟩,
              by simp [hH], ?_⟩
            intro p2 hp2 hdist hR hWS hsel
            rcases hsel with hc | hc
            · rw [hS] at hc
              exact absurd hc (by decide)
            · exact absurd hc.2 hF
  · rw [if_neg hS] at h
    cases rollbackOnFail with
    | false =>
      dsimp only [] at h
      injection h with hfs hout
      subst hfs
      subst hout
      refine ⟨⟨rfl, rfl, rfl⟩, ⟨rd3, hrun3, Or.inl ⟨hver3, rfl⟩⟩,
        by simp [hS], ?_⟩
      intro p2 hp2 hdist hR hWS hsel
      exact absurd hR (by decide)
    | true =>
      cases prev with
      | none =>
        dsimp only [] at h
        injection h with hfs hout
        subst hfs
        subst hout
        refine ⟨⟨rfl, rfl, rfl⟩, ⟨rd3, hrun3, Or.inl ⟨hver3, rfl⟩⟩,
          by simp [hS], ?_⟩
        intro p2 hp2 hdist hR hWS hsel
        exact absurd hp2 (by simp)
      | some p =>
        dsimp only [] at h
        have hactR : ¬ activeVersion fs3 = some p := by
          have hact3 : activeVersion fs3 = some vnew := by
            unfold activeVersion
            rw [hrun3]
            exact hver3
          rw [hact3]
          intro hc
          injection hc with hc2
          exact hpne p rfl hc2.symm
        obtain ⟨hfields, ⟨rd, hrd, hdisj⟩, hnsucc, hcond⟩ :=
          upgradeRollback_cases fs3 p wasRunning env.startPrevOk fs2 out
            rd3 vnew h hrun3 hver3 hactR hold3
        refine ⟨hfields, ⟨rd, hrd, ?_⟩, ?_, ?_⟩
        · rcases hdisj with ⟨hv, he⟩ | ⟨hv, he⟩
          · exact Or.inl ⟨hv, he⟩
          · exact Or.inr ⟨p, rfl, hv, he⟩
        · constructor
          · intro hx
            exact absurd hx hnsucc
          · intro hx
            exact absurd hx.1 hS
        · intro p2 hp2 hdist hR hWS hsel
          injection hp2 with hp2e
          subst hp2e
          obtain ⟨ha, hb⟩ := hcond hdist
          exact ⟨ha, hb hWS⟩

/-- Claim C3 (amended): starting from an honest state whose active
version differs from the package's, every upgrade outcome leaves
`run/` as the composed view of a single version - the new one, the
previous one, or (when the install step raised) the state exactly as
found - with `run/.version` naming it; the upgrade succeeds exactly
when install, start and health check all pass; and an S4 start failure
or S5 health failure with rollback enabled, a known installed previous
version, and a non-raising rollback sequence re-activates the previous
version and returns failure. -/
theorem c3_upgrade_outcomes (fs : AppFs) (pkg : UpgradePkg) (keep : Nat)
    (rollbackOnFail : Bool) (env : UpgradeEnv) (fs2 : AppFs) (out : UpOutcome)
    (hwf : wfAppFs fs)
    (hne : ¬ activeVersion fs = some pkg.version)
    (h : appdeploy_cmd_upgrade fs pkg keep rollbackOnFail env = (fs2, out)) :
    (∀ rd, fs2.run = some rd → ∃ v0, rd.version = some v0 ∧
      rd.entries = (appdeploy_target_populate_run fs2 v0 emptyRunDir).entries ∧
      (v0 = pkg.version ∨ some v0 = activeVersion fs)) ∧
    (fs2.run = none → fs2 = fs) ∧
    (out = .success ↔
      env.installOk = true ∧ env.startNewOk = true ∧ env.healthOk = true) ∧
    (∀ p, env.installOk = true → env.startNewOk = false →
      rollbackOnFail = true → activeVersion fs = some p →
      (distLookup fs p).isNone = false →
      (pidExists fs = false ∨ env.startPrevOk = true) →
      activeVersion fs2 = some p ∧ out = .failed) ∧
    (∀ p, env.installOk = true → env.healthOk = false →
      rollbackOnFail = true → env.stopForceOk = true →
      activeVersion fs = some p →
      (distLookup fs p).isNone = false →
      (pidExists fs = false ∨ env.startPrevOk = true) →
      activeVersion fs2 = some p ∧ out = .failed) := by
  obtain ⟨hwfN, hwfO, hwfRun⟩ := hwf
  by_cases hio : env.installOk = true
  · have hinst : appdeploy_target_install fs pkg keep env.installOk
        = .ok (installClean fs pkg keep) := by
      unfold appdeploy_target_install
      rw [hio]
      rw [if_neg (by decide)]
    unfold appdeploy_cmd_upgrade at h
    rw [hinst] at h
    dsimp only [] at h
    obtain ⟨hIrun, hIdata, hIconf, hInew, hIold⟩ := installClean_fields fs pkg keep
    obtain ⟨hSdist, hSdata, hSconf, hSold, hSact⟩ :=
      stopStepState_fields (installClean fs pkg keep) (pidExists fs) env.stopOk
    have hIact : activeVersion (installClean fs pkg keep) = activeVersion fs := by
      unfold activeVersion
      rw [hIrun]
    have hSdistNew : (distLookup
        (stopStepState (installClean fs pkg keep) (pidExists fs) env.stopOk)
        pkg.version).isNone = false := by
      rw [distLookup_congr _ _ _ hSdist, installClean_distLookup_new]
      rfl
    have hSactne : ¬ activeVersion
        (stopStepState (installClean fs pkg keep) (pidExists fs) env.stopOk)
        = some pkg.version := by
      rw [hSact, hIact]
      exact hne
    have hSoldnone : (stopStepState (installClean fs pkg keep) (pidExists fs)
        env.stopOk).runOld = none := by
      rw [hSold, hIold]
      exact hwfO
    rw [activate_complete_ok_eq _ pkg.version hSdistNew hSactne hSoldnone] at h
    dsimp only [] at h
    have hpne : ∀ p, activeVersion fs = some p → ¬ p = pkg.version := by
      intro p hp hc
      rw [hc] at hp
      exact hne hp
    obtain ⟨hfields, ⟨rd, hrd, hdisj⟩, hsucciff, hcond⟩ :=
      upgradePostActivate_cases _ (activeVersion fs) (pidExists fs)
        rollbackOnFail env pkg.version
        (stagedRunDir
          (stopStepState (installClean fs pkg keep) (pidExists fs) env.stopOk)
          pkg.version)
        fs2 out h rfl rfl rfl hpne
    have hdistPrev : ∀ p, activeVersion fs = some p →
        distLookup
          (stopStepState (installClean fs pkg keep) (pidExists fs) env.stopOk) p
        = distLookup fs p := by
      intro p hp
      rw [distLookup_congr _ _ _ hSdist]
      exact installClean_distLookup_active fs pkg keep p hp (hpne p hp)
    refine ⟨?_, ?_, ?_, ?_, ?_⟩
    · intro rd0 hrd0
      have hrdeq : rd0 = rd := by
        have := hrd0.symm.trans hrd
        injection this
      subst hrdeq
      rcases hdisj with ⟨hv, he⟩ | ⟨p, hp, hv, he⟩
      · refine ⟨pkg.version, hv, ?_, Or.inl rfl⟩
        rw [he]
        have hpop : appdeploy_target_populate_run
            (stopStepState (installClean fs pkg keep) (pidExists fs) env.stopOk)
            pkg.version emptyRunDir
            = appdeploy_target_populate_run fs2 pkg.version emptyRunDir := by
          refine populate_congr _ _ _ ?_ ?_ ?_
          · exact (distLookup_congr fs2 _ pkg.version hfields.2.2).symm
          · exact hfields.1.symm
          · exact hfields.2.1.symm
        rw [← hpop]
        rfl
      · refine ⟨p, hv, ?_, Or.inr hp.symm⟩
        rw [he]
        have hpop : appdeploy_target_populate_run
            (stopStepState (installClean fs pkg keep) (pidExists fs) env.stopOk)
            p emptyRunDir
            = appdeploy_target_populate_run fs2 p emptyRunDir := by
          refine populate_congr _ _ _ ?_ ?_ ?_
          · exact (distLookup_congr fs2 _ p hfields.2.2).symm
          · exact hfields.1.symm
          · exact hfields.2.1.symm
        rw [← hpop]
        rfl
    · intro hnone
      rw [hrd] at hnone
      exact absurd hnone (by simp)
    · constructor
      · intro hx
        obtain ⟨h1, h2⟩ := hsucciff.mp hx
        exact ⟨hio, h1, h2⟩
      · intro hx
        exact hsucciff.mpr ⟨hx.2.1, hx.2.2⟩
    · intro p hI hS hR hactp hdistp hpid
      refine hcond p hactp ?_ hR hpid (Or.inl hS)
      show (distLookup
        (stopStepState (installClean fs pkg keep) (pidExists fs) env.stopOk)
        p).isNone = false
      rw [hdistPrev p hactp]
      exact hdistp
    · intro p hI hH hR hF hactp hdistp hpid
      refine hcond p hactp ?_ hR hpid (Or.inr ⟨hH, hF⟩)
      show (distLookup
        (stopStepState (installClean fs pkg keep) (pidExists fs) env.stopOk)
        p).isNone = false
      rw [hdistPrev p hactp]
      exact hdistp
  · have hioF : env.installOk = false := by
      cases hx : env.installOk
      · rfl
      · exact absurd hx hio
    have hinst : appdeploy_target_install fs pkg keep env.installOk
        = .error fs := by
      unfold appdeploy_target_install
      rw [hioF]
      rw [if_pos (by decide)]
    unfold appdeploy_cmd_upgrade at h
    rw [hinst] at h
    dsimp only [] at h
    injection h with hfs hout
    subst hfs
    subst hout
    refine ⟨?_, fun _ => rfl, ?_, ?_, ?_⟩
    · intro rd hrd
      obtain ⟨v0, hv0, hent⟩ := hwfRun rd hrd
      refine ⟨v0, hv0, hent, Or.inr ?_⟩
      unfold activeVersion
      rw [hrd]
      exact hv0.symm
    · constructor
      · intro hx
        exact absurd hx (by decide)
      · intro hx
        rw [hioF] at hx
        exact absurd hx.1 (by decide)
    · intro p hI
      rw [hioF] at hI
      exact absurd hI (by decide)
    · intro p hI
      rw [hioF] at hI
      exact absurd hI (by decide)

/-- Counterexample to claim C3 as stated: upgrading to a rebuilt
archive of the already-active version with the S4 start failing
(rollback disabled) returns failure with `run/.version` = `1.0`, yet
`run/` is NOT the composed view of `1.0`: the freshly extracted
`dist/1.0/extra` is in the composed view but has no `run/` entry,
because the activation step returned through its idempotent early
path without repopulating `run/`. -/
theorem c3_upgrade_counterexample :
    (appdeploy_cmd_upgrade c3StaleFs c3StalePkg 5 false c3StaleEnv).2
      = .failed ∧
    activeVersion (appdeploy_cmd_upgrade c3StaleFs c3StalePkg 5 false
      c3StaleEnv).1 = some "1.0" ∧
    ((appdeploy_cmd_upgrade c3StaleFs c3StalePkg 5 false
      c3StaleEnv).1.run.getD emptyRunDir).entries
      ≠ (appdeploy_target_populate_run
          (appdeploy_cmd_upgrade c3StaleFs c3StalePkg 5 false c3StaleEnv).1
          "1.0" emptyRunDir).entries ∧
    getEntry ((appdeploy_cmd_upgrade c3StaleFs c3StalePkg 5 false
      c3StaleEnv).1.run.getD emptyRunDir).entries "extra" = none ∧
    getEntry (appdeploy_target_populate_run
        (appdeploy_cmd_upgrade c3StaleFs c3StalePkg 5 false c3StaleEnv).1
        "1.0" emptyRunDir).entries "extra" = some "../dist/1.0/extra" := by
  decide

/-- Witness for C3 (amended) at a health-check-failure upgrade from
active `1.0` to `2.0` with rollback enabled. -/
theorem c3_upgrade_outcomes_witness :
    (∀ rd, c3WitnessResult.run = some rd → ∃ v0, rd.version = some v0 ∧
      rd.entries
        = (appdeploy_target_populate_run c3WitnessResult v0 emptyRunDir).entries ∧
      (v0 = c3WitnessPkg.version ∨ some v0 = activeVersion c3WitnessFs)) ∧
    (c3WitnessResult.run = none → c3WitnessResult = c3WitnessFs) ∧
    (UpOutcome.failed = .success ↔
      c3WitnessEnv.installOk = true ∧ c3WitnessEnv.startNewOk = true ∧
        c3WitnessEnv.healthOk = true) ∧
    (∀ p, c3WitnessEnv.installOk = true → c3WitnessEnv.startNewOk = false →
      true = true → activeVersion c3WitnessFs = some p →
      (distLookup c3WitnessFs p).isNone = false →
      (pidExists c3WitnessFs = false ∨ c3WitnessEnv.startPrevOk = true) →
      activeVersion c3WitnessResult = some p ∧ UpOutcome.failed = .failed) ∧
    (∀ p, c3WitnessEnv.installOk = true → c3WitnessEnv.healthOk = false →
      true = true → c3WitnessEnv.stopForceOk = true →
      activeVersion c3WitnessFs = some p →
      (distLookup c3WitnessFs p).isNone = false →
      (pidExists c3WitnessFs = false ∨ c3WitnessEnv.startPrevOk = true) →
      activeVersion c3WitnessResult = some p ∧ UpOutcome.failed = .failed) :=
  c3_upgrade_outcomes c3WitnessFs c3WitnessPkg 5 true c3WitnessEnv
    c3WitnessResult .failed
    (by
      refine ⟨rfl, rfl, ?_⟩
      intro rd hrd
      injection hrd with he
      subst he
      exact ⟨"1.0", rfl, by decide⟩)
    (by decide)
    (by decide)

end AppDeploy




